import Mathlib

/-!
Shallow embedding of `heuristic-dates` (src/src/main.rs), a tool that
reconciles filename-encoded capture dates against EXIF metadata and
filesystem timestamps.

Modelling notes:
* Filenames and strings are `List Char`; a file is identified by its name
  (the walkdir full-path vs basename distinction is elided: the program
  derives the basename from each matched path and all decisions depend
  only on it).
* The four regexes of main.rs lines 41-44 are anchored patterns with
  fixed-width capture groups, embedded here as direct string matchers
  (`imgCaps` etc.).  The regex class `\d` is Unicode `\p{Nd}` (the
  regex crate's default), embedded as the Unicode 15.0 `Nd` range
  table; `.` is any character other than a newline.
* chrono's `parse_from_str` for the formats `%Y%m%d %H%M%S`, `%Y%m%d`
  and `%Y:%m:%d %H:%M:%S` is embedded faithfully: leading Unicode
  whitespace is trimmed before every numeric field (and for each
  whitespace run in the format string), numeric fields scan greedily
  between 1 and their maximum width ASCII digits (`%Y` at most 4 when
  unsigned, unbounded after an explicit sign), literal `:` items match
  exactly, trailing input is an error, and the assembled values are
  validated (month 1-12, day within the month, hour <= 23,
  minute <= 59, second <= 60 where 60 is a leap second).
* I/O outcomes (File::open, exif container read, exiftool exit status,
  set_file_times, fs::rename) are oracles in `FileEnv`; the per-file
  body of main.rs lines 62-191 becomes `processFile`, which returns the
  list of observable actions (log lines, subprocess invocations,
  filesystem mutations) in program order.  rayon's parallel iteration
  carries no cross-file state, so the whole run is `runMatched`,
  the concatenation over the matched files.
-/

namespace HeuristicDates

/-! ### Characters and digit strings -/

/-- Closed interval test on code points. -/
def inRange (lo hi n : Nat) : Bool := decide (lo ≤ n) && decide (n ≤ hi)

/-- An ASCII decimal digit `0`-`9`: exactly the bytes chrono's
`scan::number` consumes. -/
def isAsciiDigit (c : Char) : Bool := inRange 48 57 c.toNat

/-- The regex class `\d`, which the regex crate resolves to Unicode
`\p{Nd}` (general category Decimal_Number) by default.  These are the
`Nd` ranges of Unicode 15.0, the table shipped by the regex crate the
program builds against. -/
def isNdDigit (c : Char) : Bool :=
  let n := c.toNat
  inRange 0x30 0x39 n || inRange 0x660 0x669 n || inRange 0x6F0 0x6F9 n ||
  inRange 0x7C0 0x7C9 n || inRange 0x966 0x96F n || inRange 0x9E6 0x9EF n ||
  inRange 0xA66 0xA6F n || inRange 0xAE6 0xAEF n || inRange 0xB66 0xB6F n ||
  inRange 0xBE6 0xBEF n || inRange 0xC66 0xC6F n || inRange 0xCE6 0xCEF n ||
  inRange 0xD66 0xD6F n || inRange 0xDE6 0xDEF n || inRange 0xE50 0xE59 n ||
  inRange 0xED0 0xED9 n || inRange 0xF20 0xF29 n ||
  inRange 0x1040 0x1049 n || inRange 0x1090 0x1099 n ||
  inRange 0x17E0 0x17E9 n || inRange 0x1810 0x1819 n ||
  inRange 0x1946 0x194F n || inRange 0x19D0 0x19D9 n ||
  inRange 0x1A80 0x1A89 n || inRange 0x1A90 0x1A99 n ||
  inRange 0x1B50 0x1B59 n || inRange 0x1BB0 0x1BB9 n ||
  inRange 0x1C40 0x1C49 n || inRange 0x1C50 0x1C59 n ||
  inRange 0xA620 0xA629 n || inRange 0xA8D0 0xA8D9 n ||
  inRange 0xA900 0xA909 n || inRange 0xA9D0 0xA9D9 n ||
  inRange 0xA9F0 0xA9F9 n || inRange 0xAA50 0xAA59 n ||
  inRange 0xABF0 0xABF9 n || inRange 0xFF10 0xFF19 n ||
  inRange 0x104A0 0x104A9 n || inRange 0x10D30 0x10D39 n ||
  inRange 0x11066 0x1106F n || inRange 0x110F0 0x110F9 n ||
  inRange 0x11136 0x1113F n || inRange 0x111D0 0x111D9 n ||
  inRange 0x112F0 0x112F9 n || inRange 0x11450 0x11459 n ||
  inRange 0x114D0 0x114D9 n || inRange 0x11650 0x11659 n ||
  inRange 0x116C0 0x116C9 n || inRange 0x11730 0x11739 n ||
  inRange 0x118E0 0x118E9 n || inRange 0x11950 0x11959 n ||
  inRange 0x11C50 0x11C59 n || inRange 0x11D50 0x11D59 n ||
  inRange 0x11DA0 0x11DA9 n || inRange 0x11F50 0x11F59 n ||
  inRange 0x16A60 0x16A69 n || inRange 0x16AC0 0x16AC9 n ||
  inRange 0x16B50 0x16B59 n || inRange 0x1D7CE 0x1D7FF n ||
  inRange 0x1E140 0x1E149 n || inRange 0x1E2F0 0x1E2F9 n ||
  inRange 0x1E4F0 0x1E4F9 n || inRange 0x1E950 0x1E959 n ||
  inRange 0x1FBF0 0x1FBF9 n

/-- The Unicode `White_Space` characters, which Rust's
`str::trim_start` removes; chrono applies that trim before every
numeric field and for every whitespace run in the format string. -/
def isRustWhitespace (c : Char) : Bool :=
  let n := c.toNat
  inRange 0x9 0xD n || inRange 0x20 0x20 n || inRange 0x85 0x85 n ||
  inRange 0xA0 0xA0 n || inRange 0x1680 0x1680 n ||
  inRange 0x2000 0x200A n || inRange 0x2028 0x2029 n ||
  inRange 0x202F 0x202F n || inRange 0x205F 0x205F n ||
  inRange 0x3000 0x3000 n

/-- All characters of the list are regex (`\p{Nd}`) digits. -/
def allDigits (l : List Char) : Bool := l.all isNdDigit

/-- All characters of the list are ASCII digits. -/
def allAscii (l : List Char) : Bool := l.all isAsciiDigit

/-- No character of the list is a newline (the regex `.` never matches one). -/
def noNewline (l : List Char) : Bool := l.all (fun c => c != '\n')

/-- Match a literal prefix, returning the remainder of the input. -/
def matchLit : List Char → List Char → Option (List Char)
  | [], s => some s
  | _ :: _, [] => none
  | p :: ps, c :: cs => if c = p then matchLit ps cs else none

/-- Take exactly `n` characters of the digit class `dig` from the front
of the input (a `\d{n}` group with `\d` read as `dig`). -/
def takeDigitsN (dig : Char → Bool) (n : Nat) (s : List Char) :
    Option (List Char × List Char) :=
  if (s.take n).length = n ∧ (s.take n).all dig = true then
    some (s.take n, s.drop n)
  else none

/-- The tail region `.*EXT$` of the anchored patterns: the rest of the
input must end with the literal `ext` and contain no newline. -/
def tailMatch (ext s : List Char) : Bool :=
  noNewline s && ext.isSuffixOf s

/-! ### The four filename patterns (main.rs lines 41-44)

Each returns the capture groups when the whole filename matches; the
groups are mandatory, so `captures` yields them exactly when `is_match`
holds. -/

/-- Pattern `^IMG_(\d{8})_(\d{6})\d*.*\.jpg$`, with `\d` read as `dig`. -/
def imgCapsP (dig : Char → Bool) (s : List Char) :
    Option (List Char × List Char) := do
  let s ← matchLit "IMG_".data s
  let (d, s) ← takeDigitsN dig 8 s
  let s ← matchLit "_".data s
  let (t, s) ← takeDigitsN dig 6 s
  if tailMatch ".jpg".data s then some (d, t) else none

/-- Pattern `^VID_(\d{8})_(\d{6})\d*.*\.mp4$`, with `\d` read as `dig`. -/
def vidCapsP (dig : Char → Bool) (s : List Char) :
    Option (List Char × List Char) := do
  let s ← matchLit "VID_".data s
  let (d, s) ← takeDigitsN dig 8 s
  let s ← matchLit "_".data s
  let (t, s) ← takeDigitsN dig 6 s
  if tailMatch ".mp4".data s then some (d, t) else none

/-- Pattern `^IMG-(\d{8})-WA\d+.*\.jpg$`, with `\d` read as `dig`. -/
def imgDateOnlyCapsP (dig : Char → Bool) (s : List Char) :
    Option (List Char) := do
  let s ← matchLit "IMG-".data s
  let (d, s) ← takeDigitsN dig 8 s
  let s ← matchLit "-WA".data s
  match s with
  | c :: cs => if dig c && tailMatch ".jpg".data cs then some d else none
  | [] => none

/-- Pattern `^Screenshot_(\d{8})-(\d{6}).*\.jpg$`, with `\d` read as `dig`. -/
def screenshotCapsP (dig : Char → Bool) (s : List Char) :
    Option (List Char × List Char) := do
  let s ← matchLit "Screenshot_".data s
  let (d, s) ← takeDigitsN dig 8 s
  let s ← matchLit "-".data s
  let (t, s) ← takeDigitsN dig 6 s
  if tailMatch ".jpg".data s then some (d, t) else none

/-- The program's IMG-with-time matcher: `\d` is Unicode `\p{Nd}`. -/
def imgCaps : List Char → Option (List Char × List Char) := imgCapsP isNdDigit

/-- The program's VID-with-time matcher. -/
def vidCaps : List Char → Option (List Char × List Char) := vidCapsP isNdDigit

/-- The program's IMG-date-only matcher. -/
def imgDateOnlyCaps : List Char → Option (List Char) :=
  imgDateOnlyCapsP isNdDigit

/-- The program's Screenshot matcher. -/
def screenshotCaps : List Char → Option (List Char × List Char) :=
  screenshotCapsP isNdDigit

/-- main.rs lines 51-53: `is_img_with_date`. -/
def is_img_with_date (f : List Char) : Bool :=
  (imgCaps f).isSome || (imgDateOnlyCaps f).isSome || (screenshotCaps f).isSome

/-- main.rs line 54: `is_vid_with_date`. -/
def is_vid_with_date (f : List Char) : Bool :=
  (vidCaps f).isSome

/-- main.rs line 55: a file enters `matched_files` iff this holds of its name. -/
def matchedB (f : List Char) : Bool :=
  is_img_with_date f || is_vid_with_date f

/-- The sentinel the extraction variables are initialised to (main.rs line 67). -/
def unknownStr : List Char := "unknown".data

/-- main.rs lines 67-80: the if-let chain trying the patterns in order
IMG-with-time, VID-with-time, IMG-date-only, Screenshot; the capture
groups are mandatory, so each `unwrap_or` keeps the captured text. -/
def extract (f : List Char) : List Char × List Char :=
  match imgCaps f with
  | some (d, t) => (d, t)
  | none =>
    match vidCaps f with
    | some (d, t) => (d, t)
    | none =>
      match imgDateOnlyCaps f with
      | some d => (d, unknownStr)
      | none =>
        match screenshotCaps f with
        | some (d, t) => (d, t)
        | none => (unknownStr, unknownStr)

/-! ### chrono date/time parsing -/

/-- Digit accumulator of chrono's `scan::number`: consume up to `max`
further digits into `acc`. -/
def scanNumAux : Nat → Nat → List Char → Nat × List Char
  | 0, acc, s => (acc, s)
  | _ + 1, acc, [] => (acc, [])
  | m + 1, acc, c :: cs =>
    if isAsciiDigit c then scanNumAux m (acc * 10 + (c.toNat - 48)) cs
    else (acc, c :: cs)

/-- chrono `scan::number(s, 1, max)`: at least one digit, greedily at
most `max`. -/
def scanNum (max : Nat) (s : List Char) : Option (Nat × List Char) :=
  match s with
  | [] => none
  | c :: cs =>
    if isAsciiDigit c then some (scanNumAux (max - 1) (c.toNat - 48) cs)
    else none

/-- chrono `scan::number(s, 1, usize::MAX)`: unbounded greedy scan. -/
def scanNumAll (s : List Char) : Option (Nat × List Char) :=
  scanNum s.length s

/-- chrono's `%Y` field: an explicit sign admits unbounded digits,
otherwise at most 4 are taken. -/
def scanYear (s : List Char) : Option (Int × List Char) :=
  match s with
  | '-' :: rest => (scanNumAll rest).map fun p => (-(p.1 : Int), p.2)
  | '+' :: rest => (scanNumAll rest).map fun p => ((p.1 : Int), p.2)
  | _ => (scanNum 4 s).map fun p => ((p.1 : Int), p.2)

/-- Gregorian leap year, as chrono computes it. -/
def isLeapYear (y : Int) : Bool :=
  y % 4 == 0 && (y % 100 != 0 || y % 400 == 0)

/-- Days in a month of the proleptic Gregorian calendar. -/
def daysInMonth (y : Int) (m : Nat) : Nat :=
  match m with
  | 1 => 31
  | 2 => if isLeapYear y then 29 else 28
  | 3 => 31
  | 4 => 30
  | 5 => 31
  | 6 => 30
  | 7 => 31
  | 8 => 31
  | 9 => 30
  | 10 => 31
  | 11 => 30
  | 12 => 31
  | _ => 0

/-- Validity check of `NaiveDate::from_ymd_opt` (chrono's year range is
-262144..=262143). -/
def validDate (y : Int) (m d : Nat) : Bool :=
  decide (-262144 ≤ y) && decide (y ≤ 262143) &&
  decide (1 ≤ m) && decide (m ≤ 12) &&
  decide (1 ≤ d) && decide (d ≤ daysInMonth y m)

/-- Validity check of `Parsed::to_naive_time`: second 60 is accepted as
a leap second. -/
def validTime (h mi s : Nat) : Bool :=
  decide (h ≤ 23) && decide (mi ≤ 59) && decide (s ≤ 60)

/-- A parsed `chrono::NaiveDateTime`; `second = 60` encodes the leap
second (59 s + 1e9 ns). -/
structure NDT where
  year : Int
  month : Nat
  day : Nat
  hour : Nat
  minute : Nat
  second : Nat
deriving DecidableEq, Repr

/-- chrono's `Ord` on `NaiveDateTime`, which on this representation is
the lexicographic order on the six fields (a leap second sorts after
second 59 of its minute and before the next minute). -/
def NDT.lt (a b : NDT) : Bool :=
  if a.year < b.year then true
  else if b.year < a.year then false
  else if a.month < b.month then true
  else if b.month < a.month then false
  else if a.day < b.day then true
  else if b.day < a.day then false
  else if a.hour < b.hour then true
  else if b.hour < a.hour then false
  else if a.minute < b.minute then true
  else if b.minute < a.minute then false
  else decide (a.second < b.second)

/-- Parse `NaiveDateTime::parse_from_str(s, "%Y%m%d %H%M%S")`.  chrono
trims leading whitespace before every numeric field; the space in the
format is an `Item::Space`, itself a trim, hence the doubled trim
between `%d` and `%H`. -/
def parse_ymd_hms (s : List Char) : Option NDT := do
  let s := s.dropWhile isRustWhitespace
  let (y, s) ← scanYear s
  let s := s.dropWhile isRustWhitespace
  let (mo, s) ← scanNum 2 s
  let s := s.dropWhile isRustWhitespace
  let (d, s) ← scanNum 2 s
  let s := s.dropWhile isRustWhitespace
  let s := s.dropWhile isRustWhitespace
  let (h, s) ← scanNum 2 s
  let s := s.dropWhile isRustWhitespace
  let (mi, s) ← scanNum 2 s
  let s := s.dropWhile isRustWhitespace
  let (sec, s) ← scanNum 2 s
  if s.isEmpty && validDate y mo d && validTime h mi sec then
    some ⟨y, mo, d, h, mi, sec⟩
  else none

/-- Parse `NaiveDate::parse_from_str(s, "%Y%m%d")`, with chrono's trim
before every numeric field. -/
def parse_ymd (s : List Char) : Option (Int × Nat × Nat) := do
  let s := s.dropWhile isRustWhitespace
  let (y, s) ← scanYear s
  let s := s.dropWhile isRustWhitespace
  let (mo, s) ← scanNum 2 s
  let s := s.dropWhile isRustWhitespace
  let (d, s) ← scanNum 2 s
  if s.isEmpty && validDate y mo d then some (y, mo, d) else none

/-- Parse `NaiveDateTime::parse_from_str(s, "%Y:%m:%d %H:%M:%S")`, applied to
the EXIF `DateTimeOriginal` text (main.rs lines 91-99).  Literal `:`
items match exactly (no trim); every numeric field is preceded by
chrono's whitespace trim, and the format's space is a further trim. -/
def parse_exif_dt (s : List Char) : Option NDT := do
  let s := s.dropWhile isRustWhitespace
  let (y, s) ← scanYear s
  let s ← matchLit ":".data s
  let s := s.dropWhile isRustWhitespace
  let (mo, s) ← scanNum 2 s
  let s ← matchLit ":".data s
  let s := s.dropWhile isRustWhitespace
  let (d, s) ← scanNum 2 s
  let s := s.dropWhile isRustWhitespace
  let s := s.dropWhile isRustWhitespace
  let (h, s) ← scanNum 2 s
  let s ← matchLit ":".data s
  let s := s.dropWhile isRustWhitespace
  let (mi, s) ← scanNum 2 s
  let s ← matchLit ":".data s
  let s := s.dropWhile isRustWhitespace
  let (sec, s) ← scanNum 2 s
  if s.isEmpty && validDate y mo d && validTime h mi sec then
    some ⟨y, mo, d, h, mi, sec⟩
  else none

/-- main.rs lines 100-110 and 143-153 (the two copies are identical):
the filename-derived candidate.  `and_hms_opt (0,0,0)` on a valid date
always succeeds, hence the `map`. -/
def candidateOf (date time : List Char) : Option NDT :=
  if time ≠ unknownStr then parse_ymd_hms (date ++ ' ' :: time)
  else (parse_ymd date).map fun p => ⟨p.1, p.2.1, p.2.2, 0, 0, 0⟩

/-! ### Timestamps and the mutator helpers -/

/-- Days since 1970-01-01 of a proleptic Gregorian civil date, the
value underlying `NaiveDate`'s day arithmetic. -/
def daysFromCivil (y : Int) (m d : Nat) : Int :=
  let y' : Int := if m ≤ 2 then y - 1 else y
  let era : Int := y' / 400
  let yoe : Int := y' - era * 400
  let mp : Int := if 2 < m then (m : Int) - 3 else (m : Int) + 9
  let doy : Int := (153 * mp + 2) / 5 + (d : Int) - 1
  let doe : Int := yoe * 365 + yoe / 4 - yoe / 100 + doy
  era * 146097 + doe - 719468

/-- Timestamp `NaiveDateTime::and_utc().timestamp()`: Unix seconds; a leap second
shares the timestamp of second 59. -/
def unixTimestamp (dt : NDT) : Int :=
  daysFromCivil dt.year dt.month dt.day * 86400 +
    ((dt.hour * 3600 + dt.minute * 60 + min dt.second 59 : Nat) : Int)

/-- A file's timestamp metadata as far as the program observes it. -/
structure FileMeta where
  mtime : Int
  atime : Int
deriving DecidableEq, Repr

/-- main.rs lines 207-213, `set_file_creation_time`: build a `FileTime`
from the candidate's UTC Unix timestamp, read the current access time,
and call `set_file_times(path, atime, ft)` — so the modification time
becomes the candidate instant and the access time is rewritten to its
previous value. -/
def set_file_creation_time (new_date : NDT) (meta : FileMeta) : FileMeta :=
  { mtime := unixTimestamp new_date, atime := meta.atime }

/-! ### The per-file pipeline -/

/-- Command line configuration (main.rs lines 18-30). -/
structure Config where
  output : Option (List Char)
  dryRun : Bool

/-- Oracles for the I/O outcomes the per-file body branches on:
whether `File::open` succeeds, whether `Reader::read_from_container`
succeeds, the `DateTimeOriginal` ASCII text when the tag is present
with a non-empty Ascii value, and the success of the three mutating
operations (used only to choose between info and warn log lines). -/
structure FileEnv where
  openOk : Bool
  containerOk : Bool
  exifField : Option (List Char)
  setExifOk : Bool
  setTimeOk : Bool
  renameOk : Bool

/-- Observable actions of the per-file body, in program order.
`setExif` is the exiftool subprocess invocation (main.rs 194-205),
`setFileTime` the `set_file_times` filesystem mutation, `moveFile`
the `fs::rename`; the rest are log lines. -/
inductive Action where
  | report (fname date time : List Char)
  | setExif (fname : List Char) (dt : NDT)
  | setFileTime (fname : List Char) (dt : NDT)
  | moveFile (fname outDir destName : List Char)
  | infoDryExif (fname : List Char) (oldDt newDt : NDT)
  | infoExifModified (fname : List Char) (oldDt newDt : NDT)
  | warnExifFailed (fname : List Char)
  | infoNoChange (fname : List Char)
  | warnCouldNotParse (fname : List Char)
  | warnNoExif (fname : List Char)
  | infoDrySetTime (fname : List Char) (dt : NDT)
  | infoSetTime (fname : List Char) (dt : NDT)
  | warnSetTimeFailed (fname : List Char)
  | warnCouldNotOpen (fname : List Char)
  | infoDryMove (fname outDir : List Char)
  | infoMoved (fname outDir : List Char)
  | warnMoveFailed (fname outDir : List Char)
deriving DecidableEq, Repr

/-- Test `fname.to_lowercase().ends_with(".jpg")` (main.rs line 84); Rust's
full case mapping coincides with per-character lowercasing on the
characters that can affect this suffix test. -/
def endsWithJpgCI (f : List Char) : Bool :=
  ".jpg".data.isSuffixOf (f.map Char.toLower)

/-- main.rs lines 83-178: the EXIF / timestamp stage of the per-file
body, from the `.jpg`+known-date guard to the end of the open-file
handling. -/
def exifStage (cfg : Config) (env : FileEnv) (f date time : List Char) :
    List Action :=
  if endsWithJpgCI f && date != unknownStr then
    if env.openOk then
      if env.containerOk then
        match candidateOf date time, env.exifField.bind parse_exif_dt with
        | some parsed, some exifDt =>
          if NDT.lt parsed exifDt then
            if cfg.dryRun then [.infoDryExif f exifDt parsed]
            else
              .setExif f parsed ::
                (if env.setExifOk then [.infoExifModified f exifDt parsed]
                 else [.warnExifFailed f])
          else [.infoNoChange f]
        | _, _ => [.warnCouldNotParse f]
      else
        .warnNoExif f ::
          (match candidateOf date time with
           | some parsed =>
             if cfg.dryRun then [.infoDrySetTime f parsed]
             else
               .setFileTime f parsed ::
                 (if env.setTimeOk then [.infoSetTime f parsed]
                  else [.warnSetTimeFailed f])
           | none => [.warnCouldNotParse f])
    else [.warnCouldNotOpen f]
  else []

/-- main.rs lines 179-190: the relocation stage. -/
def moveStage (cfg : Config) (env : FileEnv) (f : List Char) : List Action :=
  match cfg.output with
  | some out =>
    if cfg.dryRun then [.infoDryMove f out]
    else
      .moveFile f out f ::
        (if env.renameOk then [.infoMoved f out] else [.warnMoveFailed f out])
  | none => []

/-- main.rs lines 62-191: the whole per-file body run for one matched
file. -/
def processFile (cfg : Config) (env : FileEnv) (f : List Char) : List Action :=
  let dt := extract f
  .report f dt.1 dt.2 :: (exifStage cfg env f dt.1 dt.2 ++ moveStage cfg env f)

/-- main.rs lines 46-59 and 62: the whole run over the scanned file
names — only names passing `matchedB` are processed.  rayon's parallel
iteration shares no state across files, so the multiset of actions is
this concatenation (taken here in scan order). -/
def runMatched (cfg : Config) (envOf : List Char → FileEnv)
    (files : List (List Char)) : List Action :=
  (files.filter matchedB).flatMap fun f => processFile cfg (envOf f) f

/-! ### Digit-string values and re-formatting -/

/-- The numeric value of a digit string, as chrono's scanner accumulates it. -/
def valOf (l : List Char) : Nat :=
  l.foldl (fun a c => a * 10 + (c.toNat - 48)) 0

/-- The ASCII digit character of a value below ten. -/
def digitC (n : Nat) : Char := Char.ofNat (48 + n)

/-- Zero-padded two-digit decimal rendering (chrono `%m`, `%d`, `%H`, `%M`, `%S`). -/
def pad2 (n : Nat) : List Char := [digitC (n / 10 % 10), digitC (n % 10)]

/-- Zero-padded four-digit decimal rendering (chrono `%Y` for the years in scope). -/
def pad4 (n : Nat) : List Char :=
  [digitC (n / 1000 % 10), digitC (n / 100 % 10), digitC (n / 10 % 10), digitC (n % 10)]

/-- Modelled from the spec (§8): re-format the date components of a
candidate the way the filename encodes them, `YYYYMMDD`. -/
def fmtDate8 (dt : NDT) : List Char :=
  pad4 dt.year.toNat ++ pad2 dt.month ++ pad2 dt.day

/-- Modelled from the spec (§8): re-format the time components of a
candidate the way the filename encodes them, `HHMMSS`. -/
def fmtTime6 (dt : NDT) : List Char :=
  pad2 dt.hour ++ pad2 dt.minute ++ pad2 dt.second

/-- The `YYYY:MM:DD HH:MM:SS` string `set_exif_date` passes to exiftool
(main.rs line 195), for the non-negative four-digit years in scope. -/
def exifFormat (dt : NDT) : List Char :=
  pad4 dt.year.toNat ++ ':' :: pad2 dt.month ++ ':' :: pad2 dt.day ++
    ' ' :: pad2 dt.hour ++ ':' :: pad2 dt.minute ++ ':' :: pad2 dt.second

/-! ### Spec-side definitions

These follow the spec's words, to be compared with the matchers and the
reconciler embedded from the source. -/

/-- Modelled from the spec (§4.2): `IMG_<8-digit-date>_<6-digit-time><suffix>.jpg`
with the digit class `dig` — the spec's stated shape reads its digits
as ASCII (`isAsciiDigit`), the program's regex as `\p{Nd}`
(`isNdDigit`).  The suffix region is matched by `\d*.*`, hence
newline-free. -/
def ConvImgWithTime (dig : Char → Bool) (f : List Char) : Prop :=
  ∃ d t suf, f = "IMG_".data ++ (d ++ '_' :: (t ++ (suf ++ ".jpg".data))) ∧
    d.length = 8 ∧ d.all dig = true ∧ t.length = 6 ∧ t.all dig = true ∧
    noNewline suf = true

/-- Modelled from the spec (§4.2): `VID_<8-digit-date>_<6-digit-time><suffix>.mp4`
with the digit class `dig`. -/
def ConvVidWithTime (dig : Char → Bool) (f : List Char) : Prop :=
  ∃ d t suf, f = "VID_".data ++ (d ++ '_' :: (t ++ (suf ++ ".mp4".data))) ∧
    d.length = 8 ∧ d.all dig = true ∧ t.length = 6 ∧ t.all dig = true ∧
    noNewline suf = true

/-- Modelled from the spec (§4.2): `IMG-<8-digit-date>-WA<digits><suffix>.jpg`
with the digit class `dig` (`WA` is followed by at least one digit, and
`<digits><suffix>` is any newline-free text after it). -/
def ConvImgDateOnly (dig : Char → Bool) (f : List Char) : Prop :=
  ∃ d c suf, f = "IMG-".data ++ (d ++ '-' :: 'W' :: 'A' :: c :: (suf ++ ".jpg".data)) ∧
    d.length = 8 ∧ d.all dig = true ∧ dig c = true ∧ noNewline suf = true

/-- Modelled from the spec (§4.2): `Screenshot_<8-digit-date>-<6-digit-time><suffix>.jpg`
with the digit class `dig`. -/
def ConvScreenshot (dig : Char → Bool) (f : List Char) : Prop :=
  ∃ d t suf, f = "Screenshot_".data ++ (d ++ '-' :: (t ++ (suf ++ ".jpg".data))) ∧
    d.length = 8 ∧ d.all dig = true ∧ t.length = 6 ∧ t.all dig = true ∧
    noNewline suf = true

/-- Modelled from the spec (§4.4): interpret a captured six-ASCII-digit
time as hour/minute/second fields, with the same validity rule the
parser applies (the parser itself reads only ASCII digits). -/
def timeDigitsOf (t : List Char) : Option (Nat × Nat × Nat) :=
  if t.length = 6 ∧ allAscii t = true then
    let h := valOf (t.take 2)
    let mi := valOf ((t.drop 2).take 2)
    let s := valOf (t.drop 4)
    if validTime h mi s = true then some (h, mi, s) else none
  else none

/-- Modelled from the spec (§4.4): "if a time component was captured,
combine date+time; otherwise use the date at midnight". -/
def specCandidate (date time : List Char) : Option NDT :=
  if time ≠ unknownStr then
    match parse_ymd date, timeDigitsOf time with
    | some (y, mo, dd), some (h, mi, s) => some ⟨y, mo, dd, h, mi, s⟩
    | _, _ => none
  else (parse_ymd date).map fun p => ⟨p.1, p.2.1, p.2.2, 0, 0, 0⟩

/-! ### Action classifiers -/

/-- The kind of an observable action. -/
inductive AKind where
  | report
  | exifWrite
  | timeWrite
  | move
  | log
deriving DecidableEq, Repr

/-- Classify an action. -/
def kindOf : Action → AKind
  | .report .. => .report
  | .setExif .. => .exifWrite
  | .setFileTime .. => .timeWrite
  | .moveFile .. => .move
  | _ => .log

/-- The file an action concerns. -/
def actFile : Action → List Char
  | .report f _ _ => f
  | .setExif f _ => f
  | .setFileTime f _ => f
  | .moveFile f _ _ => f
  | .infoDryExif f _ _ => f
  | .infoExifModified f _ _ => f
  | .warnExifFailed f => f
  | .infoNoChange f => f
  | .warnCouldNotParse f => f
  | .warnNoExif f => f
  | .infoDrySetTime f _ => f
  | .infoSetTime f _ => f
  | .warnSetTimeFailed f => f
  | .warnCouldNotOpen f => f
  | .infoDryMove f _ => f
  | .infoMoved f _ => f
  | .warnMoveFailed f _ => f

/-- The classification line of main.rs line 81. -/
def isReportA (a : Action) : Bool := kindOf a == .report

/-- Filesystem mutations and the metadata rewrite: the exiftool write,
the timestamp update, the file move. -/
def isMutationA (a : Action) : Bool :=
  kindOf a == .exifWrite || kindOf a == .timeWrite || kindOf a == .move

/-- Subprocess invocations: only `set_exif_date` spawns one. -/
def isSubprocA (a : Action) : Bool := kindOf a == .exifWrite

/-! ### Character lemmas -/

theorem digit_toNat_bounds (c : Char) (h : isAsciiDigit c = true) :
    48 ≤ c.toNat ∧ c.toNat ≤ 57 := by
  simp only [isAsciiDigit, inRange, Bool.and_eq_true, decide_eq_true_iff] at h
  exact h

theorem digit_val_lt (c : Char) (h : isAsciiDigit c = true) :
    c.toNat - 48 < 10 := by
  have := digit_toNat_bounds c h
  omega

theorem digitC_of_digit (c : Char) (h : isAsciiDigit c = true) :
    digitC (c.toNat - 48) = c := by
  have hb := digit_toNat_bounds c h
  unfold digitC
  rw [Nat.add_sub_cancel' hb.1, Char.ofNat_toNat]

theorem digit_not_ws (c : Char) (h : isAsciiDigit c = true) :
    isRustWhitespace c = false := by
  rw [Bool.eq_false_iff]
  intro hws
  have hb := digit_toNat_bounds c h
  simp only [isRustWhitespace, inRange, Bool.or_eq_true, Bool.and_eq_true,
    decide_eq_true_iff] at hws
  omega

theorem digit_ne_dash (c : Char) (h : isAsciiDigit c = true) : c ≠ '-' := by
  intro hc
  subst hc
  exact absurd h (by decide)

theorem digit_ne_plus (c : Char) (h : isAsciiDigit c = true) : c ≠ '+' := by
  intro hc
  subst hc
  exact absurd h (by decide)

theorem ndDigit_not_ws {c : Char} (h : isNdDigit c = true) :
    isRustWhitespace c = false := by
  rw [Bool.eq_false_iff]
  intro hws
  simp only [isNdDigit, inRange, Bool.or_eq_true, Bool.and_eq_true,
    decide_eq_true_iff] at h
  simp only [isRustWhitespace, inRange, Bool.or_eq_true, Bool.and_eq_true,
    decide_eq_true_iff] at hws
  omega

theorem ndDigit_ne_dash {c : Char} (h : isNdDigit c = true) : c ≠ '-' := by
  intro hc
  subst hc
  exact absurd h (by decide)

theorem ndDigit_ne_plus {c : Char} (h : isNdDigit c = true) : c ≠ '+' := by
  intro hc
  subst hc
  exact absurd h (by decide)

/-! ### Pattern-matching lemmas -/

theorem matchLit_eq_some {p s r : List Char} :
    matchLit p s = some r ↔ s = p ++ r := by
  induction p generalizing s with
  | nil => simp [matchLit, eq_comm]
  | cons a ps ih =>
    cases s with
    | nil => simp [matchLit]
    | cons c cs =>
      simp only [matchLit]
      by_cases hc : c = a
      · subst hc; simp [ih]
      · simp [hc, Ne.symm hc]

theorem takeDigitsN_eq_some {dig : Char → Bool} {n : Nat} {s d r : List Char} :
    takeDigitsN dig n s = some (d, r) ↔
      s = d ++ r ∧ d.length = n ∧ d.all dig = true := by
  constructor
  · intro h
    unfold takeDigitsN at h
    split at h
    · rename_i hc
      injection h with h'
      have hd : s.take n = d := congrArg Prod.fst h'
      have hr : s.drop n = r := congrArg Prod.snd h'
      subst hd; subst hr
      exact ⟨(List.take_append_drop n s).symm, hc.1, hc.2⟩
    · exact absurd h (by simp)
  · rintro ⟨rfl, rfl, hd⟩
    unfold takeDigitsN
    rw [List.take_left, List.drop_left]
    simp [hd]

theorem tailMatch_true_iff {ext s : List Char} :
    tailMatch ext s = true ↔ noNewline s = true ∧ ext <:+ s := by
  unfold tailMatch
  rw [Bool.and_eq_true, List.isSuffixOf_iff_suffix]

theorem tailMatch_build {ext pre : List Char} (hp : noNewline pre = true)
    (he : noNewline ext = true) : tailMatch ext (pre ++ ext) = true := by
  rw [tailMatch_true_iff]
  exact ⟨by simp [noNewline] at hp he ⊢; exact ⟨hp, he⟩, List.suffix_append pre ext⟩

theorem tailMatch_dest {ext s : List Char} (h : tailMatch ext s = true) :
    ∃ pre, s = pre ++ ext ∧ noNewline pre = true := by
  rw [tailMatch_true_iff] at h
  obtain ⟨hn, pre, rfl⟩ := h
  refine ⟨pre, rfl, ?_⟩
  simp [noNewline] at hn ⊢
  exact fun c hc => hn.1 c hc

/-! ### Scanner lemmas -/

theorem scanNumAux_append (ds : List Char) (hd : allAscii ds = true)
    (acc : Nat) (r : List Char) :
    scanNumAux ds.length acc (ds ++ r) =
      (ds.foldl (fun a c => a * 10 + (c.toNat - 48)) acc, r) := by
  induction ds generalizing acc with
  | nil => rfl
  | cons c cs ih =>
    rw [allAscii, List.all_cons, Bool.and_eq_true] at hd
    simp only [List.length_cons, List.cons_append, scanNumAux, hd.1, if_pos,
      List.foldl_cons]
    exact ih hd.2 _

theorem scanNum_append (ds r : List Char) (hne : ds ≠ [])
    (hd : allAscii ds = true) :
    scanNum ds.length (ds ++ r) = some (valOf ds, r) := by
  cases ds with
  | nil => contradiction
  | cons c cs =>
    have hd' := hd
    rw [allAscii, List.all_cons, Bool.and_eq_true] at hd'
    simp only [List.length_cons, List.cons_append, scanNum, hd'.1, if_pos,
      Nat.add_sub_cancel]
    rw [scanNumAux_append cs hd'.2]
    simp [valOf, List.foldl_cons]

theorem scanNum_exact {n : Nat} (ds r : List Char) (hlen : ds.length = n)
    (hne : ds ≠ []) (hd : allAscii ds = true) :
    scanNum n (ds ++ r) = some (valOf ds, r) := by
  subst hlen; exact scanNum_append ds r hne hd

theorem scanYear_not_sign (c : Char) (s : List Char) (h1 : c ≠ '-')
    (h2 : c ≠ '+') :
    scanYear (c :: s) = (scanNum 4 (c :: s)).map fun p => ((p.1 : Int), p.2) := by
  unfold scanYear
  split
  · rename_i heq; exact absurd (List.head_eq_of_cons_eq heq) h1
  · rename_i heq; exact absurd (List.head_eq_of_cons_eq heq) h2
  · rfl

theorem scanYear_append (ds r : List Char) (hlen : ds.length = 4)
    (hd : allAscii ds = true) :
    scanYear (ds ++ r) = some (((valOf ds : Nat) : Int), r) := by
  cases ds with
  | nil => simp at hlen
  | cons c cs =>
    have hc : isAsciiDigit c = true := by
      rw [allAscii, List.all_cons, Bool.and_eq_true] at hd; exact hd.1
    rw [List.cons_append,
      scanYear_not_sign c (cs ++ r) (digit_ne_dash c hc) (digit_ne_plus c hc),
      ← List.cons_append, scanNum_exact (c :: cs) r hlen (by simp) hd]
    rfl

theorem dropWhile_ws_digit (c : Char) (cs : List Char)
    (hc : isAsciiDigit c = true) :
    (c :: cs).dropWhile isRustWhitespace = c :: cs := by
  rw [List.dropWhile_cons_of_neg]
  simp [digit_not_ws c hc]

theorem all_sub {p : Char → Bool} {l l' : List Char} (h : l.all p = true)
    (hsub : l' ⊆ l) : l'.all p = true := by
  simp only [List.all_eq_true] at h ⊢
  exact fun c hc => h c (hsub hc)

theorem all_ne_nil_head {p : Char → Bool} {l : List Char} (h : l.all p = true)
    (hne : l ≠ []) : ∃ c cs, l = c :: cs ∧ p c = true := by
  cases l with
  | nil => contradiction
  | cons c cs =>
    rw [List.all_cons, Bool.and_eq_true] at h
    exact ⟨c, cs, rfl, h.1⟩

theorem dropWhile_rws_of_digit {ds r : List Char} (hne : ds ≠ [])
    (hd : allAscii ds = true) :
    (ds ++ r).dropWhile isRustWhitespace = ds ++ r := by
  rw [allAscii] at hd
  obtain ⟨c, cs, rfl, hc⟩ := all_ne_nil_head hd hne
  rw [List.cons_append]
  exact dropWhile_ws_digit _ _ hc

/-! ### Parse lemmas on extracted digit groups -/

theorem ne_nil_of_length_eq {l : List Char} {n : Nat} (h : l.length = n)
    (hn : n ≠ 0) : l ≠ [] := by
  intro hl; rw [hl] at h; simp at h; omega

theorem parse_ymd_hms_pieces (d4 d2a d2b t2a t2b t2c : List Char)
    (l4 : d4.length = 4) (l2a : d2a.length = 2) (l2b : d2b.length = 2)
    (m2a : t2a.length = 2) (m2b : t2b.length = 2) (m2c : t2c.length = 2)
    (g4 : allAscii d4 = true) (g2a : allAscii d2a = true)
    (g2b : allAscii d2b = true) (k2a : allAscii t2a = true)
    (k2b : allAscii t2b = true) (k2c : allAscii t2c = true) :
    parse_ymd_hms (d4 ++ (d2a ++ (d2b ++ ' ' :: (t2a ++ (t2b ++ t2c))))) =
      if validDate ((valOf d4 : Nat) : Int) (valOf d2a) (valOf d2b) &&
         validTime (valOf t2a) (valOf t2b) (valOf t2c) then
        some ⟨((valOf d4 : Nat) : Int), valOf d2a, valOf d2b,
              valOf t2a, valOf t2b, valOf t2c⟩
      else none := by
  have tr1 := dropWhile_rws_of_digit (r := d2a ++ (d2b ++ ' ' :: (t2a ++ (t2b ++ t2c))))
    (ne_nil_of_length_eq l4 (by omega)) g4
  have s1 := scanYear_append d4 (d2a ++ (d2b ++ ' ' :: (t2a ++ (t2b ++ t2c)))) l4 g4
  have tr2 := dropWhile_rws_of_digit (r := d2b ++ ' ' :: (t2a ++ (t2b ++ t2c)))
    (ne_nil_of_length_eq l2a (by omega)) g2a
  have s2 := scanNum_exact d2a (d2b ++ ' ' :: (t2a ++ (t2b ++ t2c))) l2a
    (ne_nil_of_length_eq l2a (by omega)) g2a
  have tr3 := dropWhile_rws_of_digit (r := ' ' :: (t2a ++ (t2b ++ t2c)))
    (ne_nil_of_length_eq l2b (by omega)) g2b
  have s3 := scanNum_exact d2b (' ' :: (t2a ++ (t2b ++ t2c))) l2b
    (ne_nil_of_length_eq l2b (by omega)) g2b
  have tr5 := dropWhile_rws_of_digit (r := t2b ++ t2c)
    (ne_nil_of_length_eq m2a (by omega)) k2a
  have tr4 : (' ' :: (t2a ++ (t2b ++ t2c))).dropWhile isRustWhitespace =
      t2a ++ (t2b ++ t2c) := by
    rw [List.dropWhile_cons_of_pos (by decide)]
    exact tr5
  have s5 := scanNum_exact t2a (t2b ++ t2c) m2a
    (ne_nil_of_length_eq m2a (by omega)) k2a
  have tr6 := dropWhile_rws_of_digit (r := t2c)
    (ne_nil_of_length_eq m2b (by omega)) k2b
  have s6 := scanNum_exact t2b t2c m2b (ne_nil_of_length_eq m2b (by omega)) k2b
  have tr7 : (t2c ++ ([] : List Char)).dropWhile isRustWhitespace =
      t2c ++ ([] : List Char) :=
    dropWhile_rws_of_digit (ne_nil_of_length_eq m2c (by omega)) k2c
  have s7 : scanNum 2 (t2c ++ []) = some (valOf t2c, []) :=
    scanNum_exact t2c [] m2c (ne_nil_of_length_eq m2c (by omega)) k2c
  rw [List.append_nil] at s7 tr7
  simp [parse_ymd_hms, tr1, s1, tr2, s2, tr3, s3, tr4, tr5, s5, tr6, s6, tr7, s7]

theorem parse_ymd_pieces (d4 d2a d2b : List Char)
    (l4 : d4.length = 4) (l2a : d2a.length = 2) (l2b : d2b.length = 2)
    (g4 : allAscii d4 = true) (g2a : allAscii d2a = true)
    (g2b : allAscii d2b = true) :
    parse_ymd (d4 ++ (d2a ++ d2b)) =
      if validDate ((valOf d4 : Nat) : Int) (valOf d2a) (valOf d2b) then
        some (((valOf d4 : Nat) : Int), valOf d2a, valOf d2b)
      else none := by
  have tr1 := dropWhile_rws_of_digit (r := d2a ++ d2b)
    (ne_nil_of_length_eq l4 (by omega)) g4
  have s1 := scanYear_append d4 (d2a ++ d2b) l4 g4
  have tr2 := dropWhile_rws_of_digit (r := d2b)
    (ne_nil_of_length_eq l2a (by omega)) g2a
  have s2 := scanNum_exact d2a d2b l2a (ne_nil_of_length_eq l2a (by omega)) g2a
  have tr3 : (d2b ++ ([] : List Char)).dropWhile isRustWhitespace =
      d2b ++ ([] : List Char) :=
    dropWhile_rws_of_digit (ne_nil_of_length_eq l2b (by omega)) g2b
  have s3 : scanNum 2 (d2b ++ []) = some (valOf d2b, []) :=
    scanNum_exact d2b [] l2b (ne_nil_of_length_eq l2b (by omega)) g2b
  rw [List.append_nil] at s3 tr3
  simp [parse_ymd, tr1, s1, tr2, s2, tr3, s3]

/-- Decompose an eight-ASCII-digit date group into its 4+2+2 pieces. -/
theorem split8 {d : List Char} (h8 : d.length = 8) (hd : allAscii d = true) :
    d = d.take 4 ++ ((d.drop 4).take 2 ++ d.drop 6) ∧
      (d.take 4).length = 4 ∧ ((d.drop 4).take 2).length = 2 ∧
      (d.drop 6).length = 2 ∧
      allAscii (d.take 4) = true ∧ allAscii ((d.drop 4).take 2) = true ∧
      allAscii (d.drop 6) = true := by
  refine ⟨?_, ?_, ?_, ?_, ?_, ?_, ?_⟩
  · conv_lhs => rw [← List.take_append_drop 4 d]
    congr 1
    conv_lhs => rw [← List.take_append_drop 2 (d.drop 4)]
    rw [List.drop_drop]
  · rw [List.length_take]; omega
  · rw [List.length_take, List.length_drop]; omega
  · rw [List.length_drop]; omega
  · exact all_sub hd (List.take_subset 4 d)
  · exact all_sub hd (fun c hc => List.drop_subset 4 d (List.take_subset 2 _ hc))
  · exact all_sub hd (List.drop_subset 6 d)

/-- Decompose a six-ASCII-digit time group into its 2+2+2 pieces. -/
theorem split6 {t : List Char} (h6 : t.length = 6) (ht : allAscii t = true) :
    t = t.take 2 ++ ((t.drop 2).take 2 ++ t.drop 4) ∧
      (t.take 2).length = 2 ∧ ((t.drop 2).take 2).length = 2 ∧
      (t.drop 4).length = 2 ∧
      allAscii (t.take 2) = true ∧ allAscii ((t.drop 2).take 2) = true ∧
      allAscii (t.drop 4) = true := by
  refine ⟨?_, ?_, ?_, ?_, ?_, ?_, ?_⟩
  · conv_lhs => rw [← List.take_append_drop 2 t]
    congr 1
    conv_lhs => rw [← List.take_append_drop 2 (t.drop 2)]
    rw [List.drop_drop]
  · rw [List.length_take]; omega
  · rw [List.length_take, List.length_drop]; omega
  · rw [List.length_drop]; omega
  · exact all_sub ht (List.take_subset 2 t)
  · exact all_sub ht (fun c hc => List.drop_subset 2 t (List.take_subset 2 _ hc))
  · exact all_sub ht (List.drop_subset 4 t)

/-! ### Characterization of the four matchers -/

theorem imgCapsP_eq_some_iff {dig : Char → Bool} {f d t : List Char} :
    imgCapsP dig f = some (d, t) ↔
      ∃ suf, f = "IMG_".data ++ (d ++ '_' :: (t ++ (suf ++ ".jpg".data))) ∧
        d.length = 8 ∧ d.all dig = true ∧ t.length = 6 ∧ t.all dig = true ∧
        noNewline suf = true := by
  constructor
  · intro h
    simp only [imgCapsP, Option.bind_eq_bind, Option.bind_eq_some] at h
    obtain ⟨s1, h1, p, h2, s3, h3, q, h4, h5⟩ := h
    split at h5
    · rename_i htail
      injection h5 with h5
      have hpd : p.1 = d := congrArg Prod.fst h5
      have hqt : q.1 = t := congrArg Prod.snd h5
      obtain ⟨pre, hpre, hnn⟩ := tailMatch_dest htail
      rw [matchLit_eq_some] at h1 h3
      rw [takeDigitsN_eq_some] at h2 h4
      refine ⟨pre, ?_, hpd ▸ h2.2.1, hpd ▸ h2.2.2, hqt ▸ h4.2.1, hqt ▸ h4.2.2, hnn⟩
      rw [h1, h2.1, h3, h4.1, hpre, hpd, hqt]
      simp
    · exact absurd h5 (by simp)
  · rintro ⟨suf, rfl, hd8, hdd, ht6, htd, hsn⟩
    have e1 : matchLit "IMG_".data
        ("IMG_".data ++ (d ++ '_' :: (t ++ (suf ++ ".jpg".data)))) =
        some (d ++ '_' :: (t ++ (suf ++ ".jpg".data))) := matchLit_eq_some.mpr rfl
    have e2 : takeDigitsN dig 8 (d ++ '_' :: (t ++ (suf ++ ".jpg".data))) =
        some (d, '_' :: (t ++ (suf ++ ".jpg".data))) :=
      takeDigitsN_eq_some.mpr ⟨rfl, hd8, hdd⟩
    have e3 : matchLit "_".data ('_' :: (t ++ (suf ++ ".jpg".data))) =
        some (t ++ (suf ++ ".jpg".data)) := matchLit_eq_some.mpr rfl
    have e4 : takeDigitsN dig 6 (t ++ (suf ++ ".jpg".data)) =
        some (t, suf ++ ".jpg".data) := takeDigitsN_eq_some.mpr ⟨rfl, ht6, htd⟩
    have e5 : tailMatch ".jpg".data (suf ++ ".jpg".data) = true :=
      tailMatch_build hsn (by decide)
    simp only [imgCapsP, Option.bind_eq_bind, e1, Option.some_bind, e2, e3, e4, e5]
    simp

theorem imgCaps_eq_some_iff {f d t : List Char} :
    imgCaps f = some (d, t) ↔
      ∃ suf, f = "IMG_".data ++ (d ++ '_' :: (t ++ (suf ++ ".jpg".data))) ∧
        d.length = 8 ∧ allDigits d = true ∧ t.length = 6 ∧ allDigits t = true ∧
        noNewline suf = true :=
  imgCapsP_eq_some_iff

theorem vidCapsP_eq_some_iff {dig : Char → Bool} {f d t : List Char} :
    vidCapsP dig f = some (d, t) ↔
      ∃ suf, f = "VID_".data ++ (d ++ '_' :: (t ++ (suf ++ ".mp4".data))) ∧
        d.length = 8 ∧ d.all dig = true ∧ t.length = 6 ∧ t.all dig = true ∧
        noNewline suf = true := by
  constructor
  · intro h
    simp only [vidCapsP, Option.bind_eq_bind, Option.bind_eq_some] at h
    obtain ⟨s1, h1, p, h2, s3, h3, q, h4, h5⟩ := h
    split at h5
    · rename_i htail
      injection h5 with h5
      have hpd : p.1 = d := congrArg Prod.fst h5
      have hqt : q.1 = t := congrArg Prod.snd h5
      obtain ⟨pre, hpre, hnn⟩ := tailMatch_dest htail
      rw [matchLit_eq_some] at h1 h3
      rw [takeDigitsN_eq_some] at h2 h4
      refine ⟨pre, ?_, hpd ▸ h2.2.1, hpd ▸ h2.2.2, hqt ▸ h4.2.1, hqt ▸ h4.2.2, hnn⟩
      rw [h1, h2.1, h3, h4.1, hpre, hpd, hqt]
      simp
    · exact absurd h5 (by simp)
  · rintro ⟨suf, rfl, hd8, hdd, ht6, htd, hsn⟩
    have e1 : matchLit "VID_".data
        ("VID_".data ++ (d ++ '_' :: (t ++ (suf ++ ".mp4".data)))) =
        some (d ++ '_' :: (t ++ (suf ++ ".mp4".data))) := matchLit_eq_some.mpr rfl
    have e2 : takeDigitsN dig 8 (d ++ '_' :: (t ++ (suf ++ ".mp4".data))) =
        some (d, '_' :: (t ++ (suf ++ ".mp4".data))) :=
      takeDigitsN_eq_some.mpr ⟨rfl, hd8, hdd⟩
    have e3 : matchLit "_".data ('_' :: (t ++ (suf ++ ".mp4".data))) =
        some (t ++ (suf ++ ".mp4".data)) := matchLit_eq_some.mpr rfl
    have e4 : takeDigitsN dig 6 (t ++ (suf ++ ".mp4".data)) =
        some (t, suf ++ ".mp4".data) := takeDigitsN_eq_some.mpr ⟨rfl, ht6, htd⟩
    have e5 : tailMatch ".mp4".data (suf ++ ".mp4".data) = true :=
      tailMatch_build hsn (by decide)
    simp only [vidCapsP, Option.bind_eq_bind, e1, Option.some_bind, e2, e3, e4, e5]
    simp

theorem vidCaps_eq_some_iff {f d t : List Char} :
    vidCaps f = some (d, t) ↔
      ∃ suf, f = "VID_".data ++ (d ++ '_' :: (t ++ (suf ++ ".mp4".data))) ∧
        d.length = 8 ∧ allDigits d = true ∧ t.length = 6 ∧ allDigits t = true ∧
        noNewline suf = true :=
  vidCapsP_eq_some_iff

theorem screenshotCapsP_eq_some_iff {dig : Char → Bool} {f d t : List Char} :
    screenshotCapsP dig f = some (d, t) ↔
      ∃ suf, f = "Screenshot_".data ++ (d ++ '-' :: (t ++ (suf ++ ".jpg".data))) ∧
        d.length = 8 ∧ d.all dig = true ∧ t.length = 6 ∧ t.all dig = true ∧
        noNewline suf = true := by
  constructor
  · intro h
    simp only [screenshotCapsP, Option.bind_eq_bind, Option.bind_eq_some] at h
    obtain ⟨s1, h1, p, h2, s3, h3, q, h4, h5⟩ := h
    split at h5
    · rename_i htail
      injection h5 with h5
      have hpd : p.1 = d := congrArg Prod.fst h5
      have hqt : q.1 = t := congrArg Prod.snd h5
      obtain ⟨pre, hpre, hnn⟩ := tailMatch_dest htail
      rw [matchLit_eq_some] at h1 h3
      rw [takeDigitsN_eq_some] at h2 h4
      refine ⟨pre, ?_, hpd ▸ h2.2.1, hpd ▸ h2.2.2, hqt ▸ h4.2.1, hqt ▸ h4.2.2, hnn⟩
      rw [h1, h2.1, h3, h4.1, hpre, hpd, hqt]
      simp
    · exact absurd h5 (by simp)
  · rintro ⟨suf, rfl, hd8, hdd, ht6, htd, hsn⟩
    have e1 : matchLit "Screenshot_".data
        ("Screenshot_".data ++ (d ++ '-' :: (t ++ (suf ++ ".jpg".data)))) =
        some (d ++ '-' :: (t ++ (suf ++ ".jpg".data))) := matchLit_eq_some.mpr rfl
    have e2 : takeDigitsN dig 8 (d ++ '-' :: (t ++ (suf ++ ".jpg".data))) =
        some (d, '-' :: (t ++ (suf ++ ".jpg".data))) :=
      takeDigitsN_eq_some.mpr ⟨rfl, hd8, hdd⟩
    have e3 : matchLit "-".data ('-' :: (t ++ (suf ++ ".jpg".data))) =
        some (t ++ (suf ++ ".jpg".data)) := matchLit_eq_some.mpr rfl
    have e4 : takeDigitsN dig 6 (t ++ (suf ++ ".jpg".data)) =
        some (t, suf ++ ".jpg".data) := takeDigitsN_eq_some.mpr ⟨rfl, ht6, htd⟩
    have e5 : tailMatch ".jpg".data (suf ++ ".jpg".data) = true :=
      tailMatch_build hsn (by decide)
    simp only [screenshotCapsP, Option.bind_eq_bind, e1, Option.some_bind, e2, e3, e4, e5]
    simp

theorem screenshotCaps_eq_some_iff {f d t : List Char} :
    screenshotCaps f = some (d, t) ↔
      ∃ suf, f = "Screenshot_".data ++ (d ++ '-' :: (t ++ (suf ++ ".jpg".data))) ∧
        d.length = 8 ∧ allDigits d = true ∧ t.length = 6 ∧ allDigits t = true ∧
        noNewline suf = true :=
  screenshotCapsP_eq_some_iff

theorem imgDateOnlyCapsP_eq_some_iff {dig : Char → Bool} {f d : List Char} :
    imgDateOnlyCapsP dig f = some d ↔
      ∃ c suf, f = "IMG-".data ++ (d ++ '-' :: 'W' :: 'A' :: c :: (suf ++ ".jpg".data)) ∧
        d.length = 8 ∧ d.all dig = true ∧ dig c = true ∧
        noNewline suf = true := by
  constructor
  · intro h
    simp only [imgDateOnlyCapsP, Option.bind_eq_bind, Option.bind_eq_some] at h
    obtain ⟨s1, h1, p, h2, s3, h3, h4⟩ := h
    rw [matchLit_eq_some] at h1 h3
    rw [takeDigitsN_eq_some] at h2
    split at h4
    · rename_i c cs
      split at h4
      · rename_i hcond
        rw [Bool.and_eq_true] at hcond
        injection h4 with h4
        obtain ⟨pre, hpre, hnn⟩ := tailMatch_dest hcond.2
        refine ⟨c, pre, ?_, h4 ▸ h2.2.1, h4 ▸ h2.2.2, hcond.1, hnn⟩
        rw [h1, h2.1, h3, hpre, h4]
        simp
      · exact absurd h4 (by simp)
    · exact absurd h4 (by simp)
  · rintro ⟨c, suf, rfl, hd8, hdd, hc, hsn⟩
    have e1 : matchLit "IMG-".data
        ("IMG-".data ++ (d ++ '-' :: 'W' :: 'A' :: c :: (suf ++ ".jpg".data))) =
        some (d ++ '-' :: 'W' :: 'A' :: c :: (suf ++ ".jpg".data)) :=
      matchLit_eq_some.mpr rfl
    have e2 : takeDigitsN dig 8 (d ++ '-' :: 'W' :: 'A' :: c :: (suf ++ ".jpg".data)) =
        some (d, '-' :: 'W' :: 'A' :: c :: (suf ++ ".jpg".data)) :=
      takeDigitsN_eq_some.mpr ⟨rfl, hd8, hdd⟩
    have e3 : matchLit "-WA".data ('-' :: 'W' :: 'A' :: c :: (suf ++ ".jpg".data)) =
        some (c :: (suf ++ ".jpg".data)) := matchLit_eq_some.mpr rfl
    have e5 : tailMatch ".jpg".data (suf ++ ".jpg".data) = true :=
      tailMatch_build hsn (by decide)
    simp only [imgDateOnlyCapsP, Option.bind_eq_bind, e1, Option.some_bind, e2, e3, hc, e5]
    simp

theorem imgDateOnlyCaps_eq_some_iff {f d : List Char} :
    imgDateOnlyCaps f = some d ↔
      ∃ c suf, f = "IMG-".data ++ (d ++ '-' :: 'W' :: 'A' :: c :: (suf ++ ".jpg".data)) ∧
        d.length = 8 ∧ allDigits d = true ∧ isNdDigit c = true ∧
        noNewline suf = true :=
  imgDateOnlyCapsP_eq_some_iff

/-! ### Shapes of extracted groups -/

theorem imgCaps_shapes {f d t : List Char} (h : imgCaps f = some (d, t)) :
    d.length = 8 ∧ allDigits d = true ∧ t.length = 6 ∧ allDigits t = true := by
  obtain ⟨suf, _, h8, hd, h6, ht, _⟩ := imgCaps_eq_some_iff.mp h
  exact ⟨h8, hd, h6, ht⟩

theorem vidCaps_shapes {f d t : List Char} (h : vidCaps f = some (d, t)) :
    d.length = 8 ∧ allDigits d = true ∧ t.length = 6 ∧ allDigits t = true := by
  obtain ⟨suf, _, h8, hd, h6, ht, _⟩ := vidCaps_eq_some_iff.mp h
  exact ⟨h8, hd, h6, ht⟩

theorem screenshotCaps_shapes {f d t : List Char} (h : screenshotCaps f = some (d, t)) :
    d.length = 8 ∧ allDigits d = true ∧ t.length = 6 ∧ allDigits t = true := by
  obtain ⟨suf, _, h8, hd, h6, ht, _⟩ := screenshotCaps_eq_some_iff.mp h
  exact ⟨h8, hd, h6, ht⟩

theorem imgDateOnlyCaps_shapes {f d : List Char} (h : imgDateOnlyCaps f = some d) :
    d.length = 8 ∧ allDigits d = true := by
  obtain ⟨c, suf, _, h8, hd, _, _⟩ := imgDateOnlyCaps_eq_some_iff.mp h
  exact ⟨h8, hd⟩

theorem ne_unknown_of_length8 {d : List Char} (h8 : d.length = 8) :
    d ≠ unknownStr := by
  intro hd
  rw [hd] at h8
  have : unknownStr.length = 7 := rfl
  omega

theorem ne_unknown_of_length6 {t : List Char} (h6 : t.length = 6) :
    t ≠ unknownStr := by
  intro ht
  rw [ht] at h6
  have : unknownStr.length = 7 := rfl
  omega

/-- Every matched filename extracts an eight-digit date, and either a
six-digit time (patterns with a time group) or the sentinel (the
date-only pattern, reached only when the first two patterns miss). -/
theorem extract_cases (f : List Char) (hm : matchedB f = true) :
    (∃ d t, extract f = (d, t) ∧ d.length = 8 ∧ allDigits d = true ∧
      t.length = 6 ∧ allDigits t = true) ∨
    (∃ d, extract f = (d, unknownStr) ∧ d.length = 8 ∧ allDigits d = true ∧
      imgCaps f = none ∧ vidCaps f = none ∧ (imgDateOnlyCaps f).isSome = true) := by
  unfold extract
  cases h1 : imgCaps f with
  | some p =>
    obtain ⟨d, t⟩ := p
    obtain ⟨h8, hd, h6, ht⟩ := imgCaps_shapes h1
    exact Or.inl ⟨d, t, rfl, h8, hd, h6, ht⟩
  | none =>
    cases h2 : vidCaps f with
    | some p =>
      obtain ⟨d, t⟩ := p
      obtain ⟨h8, hd, h6, ht⟩ := vidCaps_shapes h2
      exact Or.inl ⟨d, t, rfl, h8, hd, h6, ht⟩
    | none =>
      cases h3 : imgDateOnlyCaps f with
      | some d =>
        obtain ⟨h8, hd⟩ := imgDateOnlyCaps_shapes h3
        exact Or.inr ⟨d, rfl, h8, hd, rfl, rfl, by simp⟩
      | none =>
        cases h4 : screenshotCaps f with
        | some p =>
          obtain ⟨d, t⟩ := p
          obtain ⟨h8, hd, h6, ht⟩ := screenshotCaps_shapes h4
          exact Or.inl ⟨d, t, rfl, h8, hd, h6, ht⟩
        | none =>
          unfold matchedB is_img_with_date is_vid_with_date at hm
          rw [h1, h2, h3, h4] at hm
          simp at hm

/-! ### Membership lemmas for the pipeline stages -/

theorem exifStage_mem {cfg : Config} {env : FileEnv} {f d t : List Char}
    {a : Action} (ha : a ∈ exifStage cfg env f d t) :
    actFile a = f ∧ kindOf a ≠ .report ∧ kindOf a ≠ .move ∧
      (cfg.dryRun = true → kindOf a = .log) := by
  unfold exifStage at ha
  repeat split at ha
  all_goals cases hcand : candidateOf d t <;> cases hdr : cfg.dryRun <;>
    cases hse : env.setExifOk <;> cases hst : env.setTimeOk <;>
    (try simp_all [actFile, kindOf]) <;>
    (try (cases a <;> simp_all [actFile, kindOf]))

theorem moveStage_mem {cfg : Config} {env : FileEnv} {f : List Char}
    {a : Action} (ha : a ∈ moveStage cfg env f) :
    actFile a = f ∧ (kindOf a = .move ∨ kindOf a = .log) ∧
      (cfg.dryRun = true → kindOf a = .log) := by
  unfold moveStage at ha
  repeat split at ha
  all_goals cases hrn : env.renameOk <;> cases hdr : cfg.dryRun <;>
    (try simp_all [actFile, kindOf]) <;>
    (try (cases a <;> simp_all [actFile, kindOf]))

theorem processFile_mem {cfg : Config} {env : FileEnv} {f : List Char}
    {a : Action} (ha : a ∈ processFile cfg env f) : actFile a = f := by
  unfold processFile at ha
  rcases List.mem_cons.mp ha with rfl | ha'
  · rfl
  · rcases List.mem_append.mp ha' with h | h
    · exact (exifStage_mem h).1
    · exact (moveStage_mem h).1

theorem processFile_report_filter (cfg : Config) (env : FileEnv) (f : List Char) :
    (processFile cfg env f).filter isReportA =
      [.report f (extract f).1 (extract f).2] := by
  unfold processFile
  rw [List.filter_cons_of_pos (by simp [isReportA, kindOf]), List.filter_append]
  have h1 : (exifStage cfg env f (extract f).1 (extract f).2).filter isReportA = [] := by
    rw [List.filter_eq_nil_iff]
    intro a ha
    simpa [isReportA] using (exifStage_mem ha).2.1
  have h2 : (moveStage cfg env f).filter isReportA = [] := by
    rw [List.filter_eq_nil_iff]
    intro a ha
    rcases (moveStage_mem ha).2.1 with h | h <;> simp [isReportA, h]
  rw [h1, h2]
  rfl

theorem processFile_dry_filter (out : Option (List Char)) (env : FileEnv)
    (f : List Char) :
    (processFile ⟨out, true⟩ env f).filter isMutationA = [] := by
  rw [List.filter_eq_nil_iff]
  intro a ha
  unfold processFile at ha
  rcases List.mem_cons.mp ha with rfl | ha'
  · simp [isMutationA, kindOf]
  · rcases List.mem_append.mp ha' with h | h
    · have hk := (exifStage_mem h).2.2.2 rfl
      simp [isMutationA, hk]
    · have hk := (moveStage_mem h).2.2 rfl
      simp [isMutationA, hk]

theorem subproc_of_mutation {a : Action} (h : isMutationA a = false) :
    isSubprocA a = false := by
  simp only [isMutationA, Bool.or_eq_false_iff] at h
  simpa [isSubprocA] using h.1.1

/-! ### Digit round-trip lemmas -/

theorem pad2_valOf {l : List Char} (h2 : l.length = 2)
    (hd : allAscii l = true) : pad2 (valOf l) = l := by
  match l, h2 with
  | [a, b], _ =>
    rw [allAscii, List.all_cons, List.all_cons, List.all_nil,
      Bool.and_true, Bool.and_eq_true] at hd
    obtain ⟨ha, hb⟩ := hd
    have hva := digit_val_lt a ha
    have hvb := digit_val_lt b hb
    have hv : valOf [a, b] = (0 * 10 + (a.toNat - 48)) * 10 + (b.toNat - 48) := rfl
    have e1 : valOf [a, b] / 10 % 10 = a.toNat - 48 := by rw [hv]; omega
    have e2 : valOf [a, b] % 10 = b.toNat - 48 := by rw [hv]; omega
    unfold pad2
    rw [e1, e2, digitC_of_digit a ha, digitC_of_digit b hb]

theorem pad4_valOf {l : List Char} (h4 : l.length = 4)
    (hd : allAscii l = true) : pad4 (valOf l) = l := by
  match l, h4 with
  | [a, b, c, e], _ =>
    rw [allAscii, List.all_cons, List.all_cons, List.all_cons, List.all_cons,
      List.all_nil, Bool.and_true, Bool.and_eq_true, Bool.and_eq_true,
      Bool.and_eq_true] at hd
    obtain ⟨ha, hb, hc, he⟩ := hd
    have hva := digit_val_lt a ha
    have hvb := digit_val_lt b hb
    have hvc := digit_val_lt c hc
    have hve := digit_val_lt e he
    have hv : valOf [a, b, c, e] =
        (((0 * 10 + (a.toNat - 48)) * 10 + (b.toNat - 48)) * 10 + (c.toNat - 48)) * 10 +
          (e.toNat - 48) := rfl
    have e1 : valOf [a, b, c, e] / 1000 % 10 = a.toNat - 48 := by rw [hv]; omega
    have e2 : valOf [a, b, c, e] / 100 % 10 = b.toNat - 48 := by rw [hv]; omega
    have e3 : valOf [a, b, c, e] / 10 % 10 = c.toNat - 48 := by rw [hv]; omega
    have e4 : valOf [a, b, c, e] % 10 = e.toNat - 48 := by rw [hv]; omega
    unfold pad4
    rw [e1, e2, e3, e4, digitC_of_digit a ha, digitC_of_digit b hb,
      digitC_of_digit c hc, digitC_of_digit e he]

/-! ### Candidate shape lemmas -/

theorem parse_ymd_shape {d : List Char} (h8 : d.length = 8)
    (hd : allAscii d = true) :
    parse_ymd d =
      if validDate ((valOf (d.take 4) : Nat) : Int) (valOf ((d.drop 4).take 2))
          (valOf (d.drop 6)) then
        some (((valOf (d.take 4) : Nat) : Int), valOf ((d.drop 4).take 2),
          valOf (d.drop 6))
      else none := by
  obtain ⟨hdec, l4, l2a, l2b, g4, g2a, g2b⟩ := split8 h8 hd
  conv_lhs => rw [hdec]
  exact parse_ymd_pieces _ _ _ l4 l2a l2b g4 g2a g2b

theorem candidateOf_shape_time {d t : List Char} (h8 : d.length = 8)
    (hd : allAscii d = true) (h6 : t.length = 6) (ht : allAscii t = true)
    (htu : t ≠ unknownStr) :
    candidateOf d t =
      if validDate ((valOf (d.take 4) : Nat) : Int) (valOf ((d.drop 4).take 2))
          (valOf (d.drop 6)) &&
         validTime (valOf (t.take 2)) (valOf ((t.drop 2).take 2))
          (valOf (t.drop 4)) then
        some ⟨((valOf (d.take 4) : Nat) : Int), valOf ((d.drop 4).take 2),
          valOf (d.drop 6), valOf (t.take 2), valOf ((t.drop 2).take 2),
          valOf (t.drop 4)⟩
      else none := by
  obtain ⟨hdec, l4, l2a, l2b, g4, g2a, g2b⟩ := split8 h8 hd
  obtain ⟨tdec, m2a, m2b, m2c, k2a, k2b, k2c⟩ := split6 h6 ht
  unfold candidateOf
  rw [if_pos htu]
  conv_lhs => rw [hdec, tdec]
  rw [List.append_assoc, List.append_assoc]
  exact parse_ymd_hms_pieces _ _ _ _ _ _ l4 l2a l2b m2a m2b m2c g4 g2a g2b
    k2a k2b k2c

theorem candidateOf_shape_noTime {d : List Char} (h8 : d.length = 8)
    (hd : allAscii d = true) :
    candidateOf d unknownStr =
      if validDate ((valOf (d.take 4) : Nat) : Int) (valOf ((d.drop 4).take 2))
          (valOf (d.drop 6)) then
        some ⟨((valOf (d.take 4) : Nat) : Int), valOf ((d.drop 4).take 2),
          valOf (d.drop 6), 0, 0, 0⟩
      else none := by
  unfold candidateOf
  rw [if_neg (by simp), parse_ymd_shape h8 hd]
  split <;> simp

/-! ### Non-ASCII digit groups make the chrono parse fail

The regex `\d` accepts any Unicode decimal digit, but chrono's scanner
consumes only ASCII digits, literal items, and whitespace trims — so a
matched group containing a non-ASCII digit can never be consumed and the
parse errors on trailing input. -/

theorem mem_of_scanNumAux {max acc v : Nat} {s r : List Char}
    (h : scanNumAux max acc s = (v, r)) {c : Char} (hc : c ∈ s) :
    c ∈ r ∨ isAsciiDigit c = true := by
  induction max generalizing acc s with
  | zero =>
    unfold scanNumAux at h
    injection h with h1 h2
    subst h2
    exact Or.inl hc
  | succ m ih =>
    cases s with
    | nil => cases hc
    | cons a as =>
      unfold scanNumAux at h
      split at h
      · rename_i hdig
        rcases List.mem_cons.mp hc with rfl | hc'
        · exact Or.inr hdig
        · exact ih h hc'
      · injection h with h1 h2
        subst h2
        exact Or.inl hc

theorem mem_of_scanNum {max v : Nat} {s r : List Char}
    (h : scanNum max s = some (v, r)) {c : Char} (hc : c ∈ s) :
    c ∈ r ∨ isAsciiDigit c = true := by
  cases s with
  | nil => cases hc
  | cons a as =>
    simp only [scanNum] at h
    split at h
    · rename_i hdig
      injection h with h'
      rcases List.mem_cons.mp hc with rfl | hc'
      · exact Or.inr hdig
      · exact mem_of_scanNumAux h' hc'
    · cases h

theorem mem_of_scanYear {y : Int} {s r : List Char}
    (h : scanYear s = some (y, r)) {c : Char} (hc : c ∈ s) :
    c ∈ r ∨ isAsciiDigit c = true ∨ c = '-' ∨ c = '+' := by
  unfold scanYear at h
  split at h
  · rename_i rest
    rw [Option.map_eq_some'] at h
    obtain ⟨⟨v, r'⟩, hv, he⟩ := h
    rw [Prod.mk.injEq] at he
    rcases List.mem_cons.mp hc with rfl | hc'
    · exact Or.inr (Or.inr (Or.inl rfl))
    · rcases mem_of_scanNum hv hc' with h' | h'
      · exact Or.inl (he.2 ▸ h')
      · exact Or.inr (Or.inl h')
  · rename_i rest
    rw [Option.map_eq_some'] at h
    obtain ⟨⟨v, r'⟩, hv, he⟩ := h
    rw [Prod.mk.injEq] at he
    rcases List.mem_cons.mp hc with rfl | hc'
    · exact Or.inr (Or.inr (Or.inr rfl))
    · rcases mem_of_scanNum hv hc' with h' | h'
      · exact Or.inl (he.2 ▸ h')
      · exact Or.inr (Or.inl h')
  · rw [Option.map_eq_some'] at h
    obtain ⟨⟨v, r'⟩, hv, he⟩ := h
    rw [Prod.mk.injEq] at he
    rcases mem_of_scanNum hv hc with h' | h'
    · exact Or.inl (he.2 ▸ h')
    · exact Or.inr (Or.inl h')

theorem mem_of_dropWhile {p : Char → Bool} {s : List Char} {c : Char}
    (hc : c ∈ s) : c ∈ s.dropWhile p ∨ p c = true := by
  by_cases h : c ∈ s.dropWhile p
  · exact Or.inl h
  · right
    rw [← List.takeWhile_append_dropWhile (p := p) (l := s)] at hc
    rcases List.mem_append.mp hc with h1 | h1
    · exact List.mem_takeWhile_imp h1
    · exact absurd h1 h

theorem parse_ymd_hms_none_of_bad {s : List Char} {c : Char} (hc : c ∈ s)
    (hna : isAsciiDigit c = false) (hws : isRustWhitespace c = false)
    (hmi : c ≠ '-') (hpl : c ≠ '+') : parse_ymd_hms s = none := by
  cases hp : parse_ymd_hms s with
  | none => rfl
  | some dt =>
    exfalso
    simp only [parse_ymd_hms, Option.bind_eq_bind, Option.bind_eq_some] at hp
    obtain ⟨p1, h1, p2, h2, p3, h3, p4, h4, p5, h5, p6, h6, hfin⟩ := hp
    split at hfin
    case isFalse => cases hfin
    rename_i hcond
    rw [Bool.and_eq_true, Bool.and_eq_true] at hcond
    have hnil : p6.2 = [] := List.isEmpty_iff.mp hcond.1.1
    have hwsn : ¬ isRustWhitespace c = true := by
      intro h'
      rw [hws] at h'
      cases h'
    have hgood : ¬ (isAsciiDigit c = true ∨ c = '-' ∨ c = '+') := by
      rintro (h' | h' | h')
      · rw [hna] at h'; cases h'
      · exact hmi h'
      · exact hpl h'
    have m0 := (mem_of_dropWhile hc).resolve_right hwsn
    have m1 : c ∈ p1.2 := by
      rcases mem_of_scanYear h1 m0 with h' | h'
      · exact h'
      · exact absurd h' hgood
    have m2 := (mem_of_dropWhile m1).resolve_right hwsn
    have m3 : c ∈ p2.2 := by
      rcases mem_of_scanNum h2 m2 with h' | h'
      · exact h'
      · exact absurd (Or.inl h') hgood
    have m4 := (mem_of_dropWhile m3).resolve_right hwsn
    have m5 : c ∈ p3.2 := by
      rcases mem_of_scanNum h3 m4 with h' | h'
      · exact h'
      · exact absurd (Or.inl h') hgood
    have m6 := (mem_of_dropWhile m5).resolve_right hwsn
    have m7 := (mem_of_dropWhile m6).resolve_right hwsn
    have m8 : c ∈ p4.2 := by
      rcases mem_of_scanNum h4 m7 with h' | h'
      · exact h'
      · exact absurd (Or.inl h') hgood
    have m9 := (mem_of_dropWhile m8).resolve_right hwsn
    have m10 : c ∈ p5.2 := by
      rcases mem_of_scanNum h5 m9 with h' | h'
      · exact h'
      · exact absurd (Or.inl h') hgood
    have m11 := (mem_of_dropWhile m10).resolve_right hwsn
    have m12 : c ∈ p6.2 := by
      rcases mem_of_scanNum h6 m11 with h' | h'
      · exact h'
      · exact absurd (Or.inl h') hgood
    rw [hnil] at m12
    cases m12

theorem parse_ymd_none_of_bad {s : List Char} {c : Char} (hc : c ∈ s)
    (hna : isAsciiDigit c = false) (hws : isRustWhitespace c = false)
    (hmi : c ≠ '-') (hpl : c ≠ '+') : parse_ymd s = none := by
  cases hp : parse_ymd s with
  | none => rfl
  | some v =>
    exfalso
    simp only [parse_ymd, Option.bind_eq_bind, Option.bind_eq_some] at hp
    obtain ⟨p1, h1, p2, h2, p3, h3, hfin⟩ := hp
    split at hfin
    case isFalse => cases hfin
    rename_i hcond
    rw [Bool.and_eq_true] at hcond
    have hnil : p3.2 = [] := List.isEmpty_iff.mp hcond.1
    have hwsn : ¬ isRustWhitespace c = true := by
      intro h'
      rw [hws] at h'
      cases h'
    have hgood : ¬ (isAsciiDigit c = true ∨ c = '-' ∨ c = '+') := by
      rintro (h' | h' | h')
      · rw [hna] at h'; cases h'
      · exact hmi h'
      · exact hpl h'
    have m0 := (mem_of_dropWhile hc).resolve_right hwsn
    have m1 : c ∈ p1.2 := by
      rcases mem_of_scanYear h1 m0 with h' | h'
      · exact h'
      · exact absurd h' hgood
    have m2 := (mem_of_dropWhile m1).resolve_right hwsn
    have m3 : c ∈ p2.2 := by
      rcases mem_of_scanNum h2 m2 with h' | h'
      · exact h'
      · exact absurd (Or.inl h') hgood
    have m4 := (mem_of_dropWhile m3).resolve_right hwsn
    have m5 : c ∈ p3.2 := by
      rcases mem_of_scanNum h3 m4 with h' | h'
      · exact h'
      · exact absurd (Or.inl h') hgood
    rw [hnil] at m5
    cases m5

theorem parse_ymd_hms_none_of_nd {s : List Char} {c : Char} (hc : c ∈ s)
    (hnd : isNdDigit c = true) (hna : isAsciiDigit c = false) :
    parse_ymd_hms s = none :=
  parse_ymd_hms_none_of_bad hc hna (ndDigit_not_ws hnd) (ndDigit_ne_dash hnd)
    (ndDigit_ne_plus hnd)

theorem parse_ymd_none_of_nd {s : List Char} {c : Char} (hc : c ∈ s)
    (hnd : isNdDigit c = true) (hna : isAsciiDigit c = false) :
    parse_ymd s = none :=
  parse_ymd_none_of_bad hc hna (ndDigit_not_ws hnd) (ndDigit_ne_dash hnd)
    (ndDigit_ne_plus hnd)

theorem exists_bad {l : List Char} (hnd : allDigits l = true)
    (hna : allAscii l = false) :
    ∃ c ∈ l, isNdDigit c = true ∧ isAsciiDigit c = false := by
  rw [allAscii, List.all_eq_false] at hna
  obtain ⟨c, hc, hcb⟩ := hna
  rw [allDigits, List.all_eq_true] at hnd
  exact ⟨c, hc, hnd c hc, by simpa using hcb⟩

theorem candidateOf_none_bad_d {d t : List Char} (hnd : allDigits d = true)
    (hbd : allAscii d = false) : candidateOf d t = none := by
  obtain ⟨c, hc, hcn, hca⟩ := exists_bad hnd hbd
  unfold candidateOf
  split
  · exact parse_ymd_hms_none_of_nd (List.mem_append_left _ hc) hcn hca
  · rw [parse_ymd_none_of_nd hc hcn hca]
    rfl

theorem candidateOf_none_bad_t {d t : List Char} (hnt : allDigits t = true)
    (hbt : allAscii t = false) (htu : t ≠ unknownStr) :
    candidateOf d t = none := by
  obtain ⟨c, hc, hcn, hca⟩ := exists_bad hnt hbt
  unfold candidateOf
  rw [if_pos htu]
  exact parse_ymd_hms_none_of_nd
    (List.mem_append_right _ (List.mem_cons_of_mem _ hc)) hcn hca

theorem specCandidate_none_bad_d {d t : List Char} (hnd : allDigits d = true)
    (hbd : allAscii d = false) : specCandidate d t = none := by
  obtain ⟨c, hc, hcn, hca⟩ := exists_bad hnd hbd
  have hpn := parse_ymd_none_of_nd hc hcn hca
  unfold specCandidate
  split
  · rw [hpn]
  · rw [hpn]
    rfl

theorem specCandidate_none_bad_t {d t : List Char} (hbt : allAscii t = false)
    (htu : t ≠ unknownStr) : specCandidate d t = none := by
  unfold specCandidate
  rw [if_pos htu]
  have h2 : timeDigitsOf t = none := by
    unfold timeDigitsOf
    rw [if_neg (by simp [hbt])]
  rw [h2]
  cases parse_ymd d <;> rfl

/-! ### Claim theorems -/

/-- C7: For every matched file, the candidate timestamp is built from the
filename match as follows: if a time component was captured, the candidate
is the combination of the extracted date and time; otherwise the candidate
is the extracted date at midnight (00:00:00).  (`specCandidate` is the
spec's wording; `candidateOf` is the source's parse of the concatenated
strings.) -/
theorem claim_C7 (f d t : List Char) (hm : matchedB f = true)
    (hx : extract f = (d, t)) : candidateOf d t = specCandidate d t := by
  rcases extract_cases f hm with ⟨d', t', hx', h8, hd, h6, ht⟩ |
    ⟨d', hx', h8, hd, _, _, _⟩
  · rw [hx] at hx'
    injection hx' with hdd htt
    subst hdd; subst htt
    have htu : t ≠ unknownStr := ne_unknown_of_length6 h6
    by_cases hAd : allAscii d = true
    · by_cases hAt : allAscii t = true
      · rw [candidateOf_shape_time h8 hAd h6 hAt htu]
        unfold specCandidate
        rw [if_pos htu, parse_ymd_shape h8 hAd]
        cases hvd : validDate ((valOf (d.take 4) : Nat) : Int)
            (valOf ((d.drop 4).take 2)) (valOf (d.drop 6)) <;>
          cases hvt : validTime (valOf (t.take 2)) (valOf ((t.drop 2).take 2))
            (valOf (t.drop 4)) <;>
          simp [timeDigitsOf, h6, hAt, hvd, hvt]
      · have hbt : allAscii t = false := by
          rwa [Bool.not_eq_true] at hAt
        rw [candidateOf_none_bad_t ht hbt htu, specCandidate_none_bad_t hbt htu]
    · have hbd : allAscii d = false := by
        rwa [Bool.not_eq_true] at hAd
      rw [candidateOf_none_bad_d hd hbd, specCandidate_none_bad_d hd hbd]
  · rw [hx] at hx'
    injection hx' with hdd htt
    subst hdd; subst htt
    simp [candidateOf, specCandidate]

/-- C7 witness at the file `IMG-20210601-WA0001.jpg`, whose extraction has
no time component. -/
theorem claim_C7_witness :
    candidateOf "20210601".data unknownStr =
      specCandidate "20210601".data unknownStr :=
  claim_C7 "IMG-20210601-WA0001.jpg".data "20210601".data unknownStr
    (by decide) (by decide)

/-- C8: For every filename matching one of the four known patterns, the
extracted date/time components round-trip: re-formatting the parsed
candidate's components reproduces exactly the date and time digit
sequences present in the filename. -/
theorem claim_C8 (f d t : List Char) (c : NDT) (hm : matchedB f = true)
    (hx : extract f = (d, t)) (hc : candidateOf d t = some c) :
    fmtDate8 c = d ∧ (t ≠ unknownStr → fmtTime6 c = t) := by
  rcases extract_cases f hm with ⟨d', t', hx', h8, hd, h6, ht⟩ |
    ⟨d', hx', h8, hd, _, _, _⟩
  · rw [hx] at hx'
    injection hx' with hdd htt
    subst hdd; subst htt
    have htu : t ≠ unknownStr := ne_unknown_of_length6 h6
    by_cases hAd : allAscii d = true
    · by_cases hAt : allAscii t = true
      · rw [candidateOf_shape_time h8 hAd h6 hAt htu] at hc
        obtain ⟨hdec, l4, l2a, l2b, g4, g2a, g2b⟩ := split8 h8 hAd
        obtain ⟨tdec, m2a, m2b, m2c, k2a, k2b, k2c⟩ := split6 h6 hAt
        split at hc
        · injection hc with hc
          subst hc
          constructor
          · unfold fmtDate8
            simp only [Int.toNat_natCast]
            rw [pad4_valOf l4 g4, pad2_valOf l2a g2a, pad2_valOf l2b g2b,
              List.append_assoc]
            exact hdec.symm
          · intro _
            unfold fmtTime6
            rw [pad2_valOf m2a k2a, pad2_valOf m2b k2b, pad2_valOf m2c k2c,
              List.append_assoc]
            exact tdec.symm
        · exact absurd hc (by simp)
      · have hbt : allAscii t = false := by
          rwa [Bool.not_eq_true] at hAt
        rw [candidateOf_none_bad_t ht hbt htu] at hc
        cases hc
    · have hbd : allAscii d = false := by
        rwa [Bool.not_eq_true] at hAd
      rw [candidateOf_none_bad_d hd hbd] at hc
      cases hc
  · rw [hx] at hx'
    injection hx' with hdd htt
    subst hdd; subst htt
    by_cases hAd : allAscii d = true
    · rw [candidateOf_shape_noTime h8 hAd] at hc
      obtain ⟨hdec, l4, l2a, l2b, g4, g2a, g2b⟩ := split8 h8 hAd
      split at hc
      · injection hc with hc
        subst hc
        refine ⟨?_, fun h => absurd rfl h⟩
        unfold fmtDate8
        simp only [Int.toNat_natCast]
        rw [pad4_valOf l4 g4, pad2_valOf l2a g2a, pad2_valOf l2b g2b,
          List.append_assoc]
        exact hdec.symm
      · exact absurd hc (by simp)
    · have hbd : allAscii d = false := by
        rwa [Bool.not_eq_true] at hAd
      rw [candidateOf_none_bad_d hd hbd] at hc
      cases hc

/-- C8 witness at the file `IMG_20230115_143000_1.jpg`. -/
theorem claim_C8_witness :
    fmtDate8 ⟨2023, 1, 15, 14, 30, 0⟩ = "20230115".data ∧
      ("143000".data ≠ unknownStr →
        fmtTime6 ⟨2023, 1, 15, 14, 30, 0⟩ = "143000".data) :=
  claim_C8 "IMG_20230115_143000_1.jpg".data "20230115".data "143000".data
    ⟨2023, 1, 15, 14, 30, 0⟩ (by decide) (by decide) (by decide)

/-- C9: For every filename accepted into the matched set, the capture
groups are present, so the extracted date never remains the sentinel
"unknown"; the time remains "unknown" only when the date-only pattern was
the first (and only img-side) pattern to match. -/
theorem claim_C9 (f : List Char) (hm : matchedB f = true) :
    (extract f).1 ≠ unknownStr ∧
      ((extract f).2 = unknownStr →
        imgCaps f = none ∧ vidCaps f = none ∧
          (imgDateOnlyCaps f).isSome = true) := by
  rcases extract_cases f hm with ⟨d, t, hx, h8, _, h6, _⟩ |
    ⟨d, hx, h8, _, h1, h2, h3⟩
  · rw [hx]
    exact ⟨ne_unknown_of_length8 h8,
      fun ht => absurd ht (ne_unknown_of_length6 h6)⟩
  · rw [hx]
    exact ⟨ne_unknown_of_length8 h8, fun _ => ⟨h1, h2, h3⟩⟩

/-- C9 witness at the files `VID_20230115_143000.mp4` and (via the
sentinel branch) `IMG-20210601-WA0001.jpg`. -/
theorem claim_C9_witness :
    (extract "VID_20230115_143000.mp4".data).1 ≠ unknownStr :=
  (claim_C9 "VID_20230115_143000.mp4".data (by decide)).1

/-- Helper for the C5 counterexample: a filename fitting a stated
convention is accepted by the corresponding matcher instantiated at the
same digit class. -/
theorem conv_isSome_imgDateOnly {dig : Char → Bool} {f : List Char}
    (h : ConvImgDateOnly dig f) : (imgDateOnlyCapsP dig f).isSome = true := by
  obtain ⟨d, c, suf, hf, h8, hd, hc, hn⟩ := h
  rw [imgDateOnlyCapsP_eq_some_iff.mpr ⟨c, suf, hf, h8, hd, hc, hn⟩]
  rfl

/-- Helper for the C5 counterexample, IMG-with-time convention. -/
theorem conv_isSome_img {dig : Char → Bool} {f : List Char}
    (h : ConvImgWithTime dig f) : (imgCapsP dig f).isSome = true := by
  obtain ⟨d, t, suf, hf, h8, hd, h6, ht, hn⟩ := h
  rw [imgCapsP_eq_some_iff.mpr ⟨suf, hf, h8, hd, h6, ht, hn⟩]
  rfl

/-- Helper for the C5 counterexample, VID-with-time convention. -/
theorem conv_isSome_vid {dig : Char → Bool} {f : List Char}
    (h : ConvVidWithTime dig f) : (vidCapsP dig f).isSome = true := by
  obtain ⟨d, t, suf, hf, h8, hd, h6, ht, hn⟩ := h
  rw [vidCapsP_eq_some_iff.mpr ⟨suf, hf, h8, hd, h6, ht, hn⟩]
  rfl

/-- Helper for the C5 counterexample, Screenshot convention. -/
theorem conv_isSome_screenshot {dig : Char → Bool} {f : List Char}
    (h : ConvScreenshot dig f) : (screenshotCapsP dig f).isSome = true := by
  obtain ⟨d, t, suf, hf, h8, hd, h6, ht, hn⟩ := h
  rw [screenshotCapsP_eq_some_iff.mpr ⟨suf, hf, h8, hd, h6, ht, hn⟩]
  rfl

/-- C5 counterexample: the filename `IMG-20210601-WA٥.jpg` — an
Arabic-Indic digit five after `WA` — is accepted by the program's
classifier, whose `\d` is Unicode `\p{Nd}`, yet it fits none of the
four stated conventions read with ASCII digits: the classifier accepts
names outside the stated conventions. -/
theorem claim_C5_cex :
    matchedB "IMG-20210601-WA٥.jpg".data = true ∧
      ¬(ConvImgWithTime isAsciiDigit "IMG-20210601-WA٥.jpg".data ∨
        ConvVidWithTime isAsciiDigit "IMG-20210601-WA٥.jpg".data ∨
        ConvImgDateOnly isAsciiDigit "IMG-20210601-WA٥.jpg".data ∨
        ConvScreenshot isAsciiDigit "IMG-20210601-WA٥.jpg".data) := by
  refine ⟨by decide, ?_⟩
  rintro (h | h | h | h)
  · exact absurd (conv_isSome_img h) (by decide)
  · exact absurd (conv_isSome_vid h) (by decide)
  · exact absurd (conv_isSome_imgDateOnly h) (by decide)
  · exact absurd (conv_isSome_screenshot h) (by decide)

/-- C5 (amended): The filename classifier recognizes exactly the four
stated conventions with their case-sensitive literal prefixes and
extensions, with `\d` read as a Unicode decimal digit (`\p{Nd}`) — on
names whose digit groups are ASCII this coincides with the stated
ASCII-digit shapes — and when a filename could match more than one
pattern the extraction branch taken follows the fixed order
IMG-with-time, VID-with-time, IMG-date-only, Screenshot, with the first
match winning. -/
theorem claim_C5 (f : List Char) :
    (matchedB f = true ↔
      ConvImgWithTime isNdDigit f ∨ ConvVidWithTime isNdDigit f ∨
        ConvImgDateOnly isNdDigit f ∨ ConvScreenshot isNdDigit f) ∧
    (∀ d t, imgCaps f = some (d, t) → extract f = (d, t)) ∧
    (∀ d t, imgCaps f = none → vidCaps f = some (d, t) → extract f = (d, t)) ∧
    (∀ d, imgCaps f = none → vidCaps f = none → imgDateOnlyCaps f = some d →
      extract f = (d, unknownStr)) ∧
    (∀ d t, imgCaps f = none → vidCaps f = none → imgDateOnlyCaps f = none →
      screenshotCaps f = some (d, t) → extract f = (d, t)) := by
  refine ⟨⟨?_, ?_⟩, ?_, ?_, ?_, ?_⟩
  · intro hm
    unfold matchedB is_img_with_date is_vid_with_date at hm
    simp only [Bool.or_eq_true, Option.isSome_iff_exists] at hm
    rcases hm with ((⟨p, hp⟩ | ⟨d0, hp⟩) | ⟨p, hp⟩) | ⟨p, hp⟩
    · obtain ⟨d0, t0⟩ := p
      obtain ⟨suf, hf, h8, hd, h6, ht, hn⟩ := imgCaps_eq_some_iff.mp hp
      exact Or.inl ⟨d0, t0, suf, hf, h8, hd, h6, ht, hn⟩
    · obtain ⟨c, suf, hf, h8, hd, hc, hn⟩ := imgDateOnlyCaps_eq_some_iff.mp hp
      exact Or.inr (Or.inr (Or.inl ⟨d0, c, suf, hf, h8, hd, hc, hn⟩))
    · obtain ⟨d0, t0⟩ := p
      obtain ⟨suf, hf, h8, hd, h6, ht, hn⟩ := screenshotCaps_eq_some_iff.mp hp
      exact Or.inr (Or.inr (Or.inr ⟨d0, t0, suf, hf, h8, hd, h6, ht, hn⟩))
    · obtain ⟨d0, t0⟩ := p
      obtain ⟨suf, hf, h8, hd, h6, ht, hn⟩ := vidCaps_eq_some_iff.mp hp
      exact Or.inr (Or.inl ⟨d0, t0, suf, hf, h8, hd, h6, ht, hn⟩)
  · intro hs
    unfold matchedB is_img_with_date is_vid_with_date
    simp only [Bool.or_eq_true, Option.isSome_iff_exists]
    rcases hs with ⟨d0, t0, suf, hf, h8, hd, h6, ht, hn⟩ |
      ⟨d0, t0, suf, hf, h8, hd, h6, ht, hn⟩ |
      ⟨d0, c, suf, hf, h8, hd, hc, hn⟩ |
      ⟨d0, t0, suf, hf, h8, hd, h6, ht, hn⟩
    · exact Or.inl (Or.inl (Or.inl ⟨(d0, t0),
        imgCaps_eq_some_iff.mpr ⟨suf, hf, h8, hd, h6, ht, hn⟩⟩))
    · exact Or.inr ⟨(d0, t0),
        vidCaps_eq_some_iff.mpr ⟨suf, hf, h8, hd, h6, ht, hn⟩⟩
    · exact Or.inl (Or.inl (Or.inr ⟨d0,
        imgDateOnlyCaps_eq_some_iff.mpr ⟨c, suf, hf, h8, hd, hc, hn⟩⟩))
    · exact Or.inl (Or.inr ⟨(d0, t0),
        screenshotCaps_eq_some_iff.mpr ⟨suf, hf, h8, hd, h6, ht, hn⟩⟩)
  · intro d t h1
    simp [extract, h1]
  · intro d t h1 h2
    simp [extract, h1, h2]
  · intro d h1 h2 h3
    simp [extract, h1, h2, h3]
  · intro d t h1 h2 h3 h4
    simp [extract, h1, h2, h3, h4]

/-- C5 witness: the date-only branch fires on `IMG-20210601-WA0001.jpg`
once the two time-bearing patterns have missed. -/
theorem claim_C5_witness :
    extract "IMG-20210601-WA0001.jpg".data = ("20210601".data, unknownStr) :=
  (claim_C5 "IMG-20210601-WA0001.jpg".data).2.2.2.1 "20210601".data
    (by decide) (by decide) (by decide)

/-! ### Reconciliation claims -/

theorem setExif_not_mem_moveStage {cfg : Config} {env : FileEnv}
    {f g : List Char} {dt : NDT}
    (h : Action.setExif g dt ∈ moveStage cfg env f) : False := by
  rcases (moveStage_mem h).2.1 with hk | hk <;> simp [kindOf] at hk

theorem setFileTime_not_mem_moveStage {cfg : Config} {env : FileEnv}
    {f g : List Char} {dt : NDT}
    (h : Action.setFileTime g dt ∈ moveStage cfg env f) : False := by
  rcases (moveStage_mem h).2.1 with hk | hk <;> simp [kindOf] at hk

/-- A timestamp-correction action can only arise from the branch in
which the EXIF container read failed (main.rs lines 140-174). -/
theorem exifStage_timeWrite {cfg : Config} {env : FileEnv}
    {f d t : List Char} {a : Action} (ha : a ∈ exifStage cfg env f d t)
    (hk : kindOf a = .timeWrite) : env.containerOk = false := by
  unfold exifStage at ha
  repeat split at ha
  all_goals cases hcand : candidateOf d t <;> cases hdr : cfg.dryRun <;>
    cases hse : env.setExifOk <;> cases hst : env.setTimeOk <;>
    (try simp_all [kindOf]) <;>
    (try (cases a <;> simp_all [kindOf]))

/-- C2: For every matched .jpg file where both the filename-derived
candidate C and the embedded date E parse successfully, a metadata
rewrite (to value C) is requested iff C is strictly earlier than E;
when C >= E no mutation of the file's metadata or timestamps occurs. -/
theorem claim_C2 (out : Option (List Char)) (env : FileEnv) (f : List Char)
    (C E : NDT)
    (hm : matchedB f = true)
    (hjpg : endsWithJpgCI f = true)
    (hdate : (extract f).1 ≠ unknownStr)
    (hopen : env.openOk = true)
    (hcont : env.containerOk = true)
    (hE : env.exifField.bind parse_exif_dt = some E)
    (hC : candidateOf (extract f).1 (extract f).2 = some C) :
    ((Action.setExif f C ∈ processFile ⟨out, false⟩ env f) ↔ NDT.lt C E = true) ∧
    (∀ dt, Action.setExif f dt ∈ processFile ⟨out, false⟩ env f →
      dt = C ∧ NDT.lt C E = true) ∧
    (NDT.lt C E = false → ∀ dt,
      Action.setExif f dt ∉ processFile ⟨out, false⟩ env f ∧
      Action.setFileTime f dt ∉ processFile ⟨out, false⟩ env f) := by
  have hp : processFile ⟨out, false⟩ env f =
      Action.report f (extract f).1 (extract f).2 ::
        (exifStage ⟨out, false⟩ env f (extract f).1 (extract f).2 ++
          moveStage ⟨out, false⟩ env f) := rfl
  have hx : exifStage ⟨out, false⟩ env f (extract f).1 (extract f).2 =
      if NDT.lt C E = true then
        Action.setExif f C ::
          (if env.setExifOk = true then [Action.infoExifModified f E C]
           else [Action.warnExifFailed f])
      else [Action.infoNoChange f] := by
    unfold exifStage
    rw [if_pos (by simp [hjpg, hdate]), if_pos hopen, if_pos hcont, hC, hE]
    rfl
  have huniq : ∀ dt, Action.setExif f dt ∈ processFile ⟨out, false⟩ env f →
      dt = C ∧ NDT.lt C E = true := by
    intro dt h
    rw [hp] at h
    rcases List.mem_cons.mp h with heq | h
    · exact absurd heq (by simp)
    rcases List.mem_append.mp h with h | h
    · rw [hx] at h
      by_cases hlt : NDT.lt C E = true
      · rw [if_pos hlt] at h
        rcases List.mem_cons.mp h with heq | h
        · injection heq with h1 h2
          exact ⟨h2, hlt⟩
        · split at h <;> simp at h
      · rw [if_neg hlt] at h
        simp at h
    · exact (setExif_not_mem_moveStage h).elim
  have hmem : NDT.lt C E = true →
      Action.setExif f C ∈ processFile ⟨out, false⟩ env f := by
    intro hlt
    rw [hp]
    refine List.mem_cons_of_mem _ (List.mem_append_left _ ?_)
    rw [hx, if_pos hlt]
    exact List.mem_cons_self _ _
  refine ⟨⟨fun h => (huniq C h).2, hmem⟩, huniq, ?_⟩
  intro hlt dt
  constructor
  · intro h
    rw [(huniq dt h).2] at hlt
    cases hlt
  · intro h
    rw [hp] at h
    rcases List.mem_cons.mp h with heq | h
    · exact absurd heq (by simp)
    rcases List.mem_append.mp h with h | h
    · rw [hx, if_neg (by simp [hlt])] at h
      simp at h
    · exact setFileTime_not_mem_moveStage h

/-- C2 witness: the spec's own example, `IMG-20210601-WA0001.jpg` with
embedded date `2021:06:02 10:00:00`; the candidate (midnight of
2021-06-01) is strictly earlier, so the rewrite is requested. -/
theorem claim_C2_witness :
    Action.setExif "IMG-20210601-WA0001.jpg".data ⟨2021, 6, 1, 0, 0, 0⟩ ∈
      processFile ⟨none, false⟩
        ⟨true, true, some "2021:06:02 10:00:00".data, true, true, true⟩
        "IMG-20210601-WA0001.jpg".data :=
  (claim_C2 none ⟨true, true, some "2021:06:02 10:00:00".data, true, true, true⟩
      "IMG-20210601-WA0001.jpg".data ⟨2021, 6, 1, 0, 0, 0⟩ ⟨2021, 6, 2, 10, 0, 0⟩
      (by decide) (by decide) (by decide) rfl rfl (by decide)
      (by decide)).1.mpr (by decide)

/-- C1 counterexample: a matched .jpg whose container is readable but
whose capture-date field is absent.  The claim says the parseable
filename candidate is applied as a filesystem timestamp correction; the
code instead emits only a parse warning — the full action list contains
no `setFileTime`. -/
theorem claim_C1_cex :
    processFile ⟨none, false⟩ ⟨true, true, none, true, true, true⟩
        "IMG_20230115_143000.jpg".data =
      [Action.report "IMG_20230115_143000.jpg".data "20230115".data
        "143000".data,
       Action.warnCouldNotParse "IMG_20230115_143000.jpg".data] := by
  decide

/-- C1 (amended): For every matched .jpg file with a known date and a
parseable filename candidate, the candidate is applied as a filesystem
timestamp correction rather than a metadata rewrite exactly when the
image container is unreadable: an unreadable container yields the
timestamp correction (and no metadata rewrite); a timestamp correction
is only ever emitted when the container read failed; and a readable
container whose capture-date field is absent or unparseable yields
neither correction nor rewrite, only a parse warning. -/
theorem claim_C1_amended (out : Option (List Char)) (env env' : FileEnv)
    (f : List Char) (C : NDT)
    (hm : matchedB f = true)
    (hjpg : endsWithJpgCI f = true)
    (hdate : (extract f).1 ≠ unknownStr)
    (hC : candidateOf (extract f).1 (extract f).2 = some C) :
    (env.openOk = true → env.containerOk = false →
      Action.setFileTime f C ∈ processFile ⟨out, false⟩ env f ∧
        ∀ dt, Action.setExif f dt ∉ processFile ⟨out, false⟩ env f) ∧
    (∀ dt, Action.setFileTime f dt ∈ processFile ⟨out, false⟩ env f →
      env.containerOk = false) ∧
    (env'.openOk = true → env'.containerOk = true →
      env'.exifField.bind parse_exif_dt = none → ∀ dt,
      Action.setFileTime f dt ∉ processFile ⟨out, false⟩ env' f ∧
        Action.setExif f dt ∉ processFile ⟨out, false⟩ env' f) := by
  refine ⟨?_, ?_, ?_⟩
  · intro hopen hcont
    have hx : exifStage ⟨out, false⟩ env f (extract f).1 (extract f).2 =
        Action.warnNoExif f ::
          (Action.setFileTime f C ::
            (if env.setTimeOk = true then [Action.infoSetTime f C]
             else [Action.warnSetTimeFailed f])) := by
      unfold exifStage
      rw [if_pos (by simp [hjpg, hdate]), if_pos hopen, hcont, hC]
      simp
    constructor
    · show Action.setFileTime f C ∈
        Action.report f (extract f).1 (extract f).2 ::
          (exifStage ⟨out, false⟩ env f (extract f).1 (extract f).2 ++
            moveStage ⟨out, false⟩ env f)
      refine List.mem_cons_of_mem _ (List.mem_append_left _ ?_)
      rw [hx]
      exact List.mem_cons_of_mem _ (List.mem_cons_self _ _)
    · intro dt h
      rcases List.mem_cons.mp h with heq | h
      · exact absurd heq (by simp)
      rcases List.mem_append.mp h with h | h
      · rw [hx] at h
        rcases List.mem_cons.mp h with heq | h
        · exact absurd heq (by simp)
        rcases List.mem_cons.mp h with heq | h
        · exact absurd heq (by simp)
        · split at h <;> simp at h
      · exact setExif_not_mem_moveStage h
  · intro dt h
    rcases List.mem_cons.mp h with heq | h
    · exact absurd heq (by simp)
    rcases List.mem_append.mp h with h | h
    · exact exifStage_timeWrite h rfl
    · exact (setFileTime_not_mem_moveStage h).elim
  · intro hopen hcont hnone dt
    have hx : exifStage ⟨out, false⟩ env' f (extract f).1 (extract f).2 =
        [Action.warnCouldNotParse f] := by
      unfold exifStage
      rw [if_pos (by simp [hjpg, hdate]), if_pos hopen, if_pos hcont, hC, hnone]
    constructor
    · intro h
      rcases List.mem_cons.mp h with heq | h
      · exact absurd heq (by simp)
      rcases List.mem_append.mp h with h | h
      · rw [hx] at h
        simp at h
      · exact setFileTime_not_mem_moveStage h
    · intro h
      rcases List.mem_cons.mp h with heq | h
      · exact absurd heq (by simp)
      rcases List.mem_append.mp h with h | h
      · rw [hx] at h
        simp at h
      · exact setExif_not_mem_moveStage h

/-- C1 witness: with an unreadable container, the timestamp correction to
2023-01-15T14:30:00 is applied to `IMG_20230115_143000.jpg`. -/
theorem claim_C1_witness :
    Action.setFileTime "IMG_20230115_143000.jpg".data ⟨2023, 1, 15, 14, 30, 0⟩ ∈
      processFile ⟨none, false⟩ ⟨true, false, none, true, true, true⟩
        "IMG_20230115_143000.jpg".data :=
  ((claim_C1_amended none ⟨true, false, none, true, true, true⟩
      ⟨true, true, none, true, true, true⟩ "IMG_20230115_143000.jpg".data
      ⟨2023, 1, 15, 14, 30, 0⟩ (by decide) (by decide) (by decide)
      (by decide)).1 rfl rfl).1

/-- C10: If opening a matched .jpg file with a known date fails, the
program emits only a warning for that file in the EXIF/timestamp stage,
attempts neither a metadata rewrite nor a timestamp correction, yet the
file is still relocated to the output directory when one was supplied
and dry-run is off. -/
theorem claim_C10 (out : List Char) (env : FileEnv) (f : List Char)
    (hm : matchedB f = true)
    (hjpg : endsWithJpgCI f = true)
    (hdate : (extract f).1 ≠ unknownStr)
    (hopen : env.openOk = false) :
    exifStage ⟨some out, false⟩ env f (extract f).1 (extract f).2 =
      [Action.warnCouldNotOpen f] ∧
    Action.moveFile f out f ∈ processFile ⟨some out, false⟩ env f ∧
    (∀ dt, Action.setExif f dt ∉ processFile ⟨some out, false⟩ env f ∧
      Action.setFileTime f dt ∉ processFile ⟨some out, false⟩ env f) := by
  have hx : exifStage ⟨some out, false⟩ env f (extract f).1 (extract f).2 =
      [Action.warnCouldNotOpen f] := by
    unfold exifStage
    rw [if_pos (by simp [hjpg, hdate]), hopen]
    simp
  refine ⟨hx, ?_, ?_⟩
  · show Action.moveFile f out f ∈
      Action.report f (extract f).1 (extract f).2 ::
        (exifStage ⟨some out, false⟩ env f (extract f).1 (extract f).2 ++
          moveStage ⟨some out, false⟩ env f)
    refine List.mem_cons_of_mem _ (List.mem_append_right _ ?_)
    unfold moveStage
    simp
  · intro dt
    constructor
    · intro h
      rcases List.mem_cons.mp h with heq | h
      · exact absurd heq (by simp)
      rcases List.mem_append.mp h with h | h
      · rw [hx] at h
        simp at h
      · exact setExif_not_mem_moveStage h
    · intro h
      rcases List.mem_cons.mp h with heq | h
      · exact absurd heq (by simp)
      rcases List.mem_append.mp h with h | h
      · rw [hx] at h
        simp at h
      · exact setFileTime_not_mem_moveStage h

/-- C10 witness: an unopenable `Screenshot_20230115-143000.jpg` is still
moved to the output directory. -/
theorem claim_C10_witness :
    Action.moveFile "Screenshot_20230115-143000.jpg".data "out".data
        "Screenshot_20230115-143000.jpg".data ∈
      processFile ⟨some "out".data, false⟩
        ⟨false, true, none, true, true, true⟩
        "Screenshot_20230115-143000.jpg".data :=
  (claim_C10 "out".data ⟨false, true, none, true, true, true⟩
      "Screenshot_20230115-143000.jpg".data (by decide) (by decide)
      (by decide) rfl).2.1

/-! ### Frame-effect claims -/

theorem processFile_dry_subproc_filter (out : Option (List Char))
    (env : FileEnv) (f : List Char) :
    (processFile ⟨out, true⟩ env f).filter isSubprocA = [] := by
  rw [List.filter_eq_nil_iff]
  intro a ha
  have h := List.filter_eq_nil_iff.mp (processFile_dry_filter out env f) a ha
  simp only [Bool.not_eq_true] at h ⊢
  exact subproc_of_mutation h

/-- C3: Dry-run mode produces the same matching and classification
(report) output per file as normal mode, while performing zero
filesystem mutations (no metadata rewrite, no timestamp change, no file
move) and zero subprocess invocations. -/
theorem claim_C3 (out : Option (List Char)) (envOf : List Char → FileEnv)
    (files : List (List Char)) :
    (runMatched ⟨out, true⟩ envOf files).filter isReportA =
      (runMatched ⟨out, false⟩ envOf files).filter isReportA ∧
    (runMatched ⟨out, true⟩ envOf files).filter isMutationA = [] ∧
    (runMatched ⟨out, true⟩ envOf files).filter isSubprocA = [] := by
  refine ⟨?_, ?_, ?_⟩
  · unfold runMatched
    rw [List.filter_flatMap, List.filter_flatMap]
    congr 1
    funext g
    rw [processFile_report_filter, processFile_report_filter]
  · unfold runMatched
    rw [List.filter_flatMap]
    have h : (fun g => (processFile ⟨out, true⟩ (envOf g) g).filter isMutationA) =
        fun _ => ([] : List Action) :=
      funext fun g => processFile_dry_filter out (envOf g) g
    rw [h]
    simp
  · unfold runMatched
    rw [List.filter_flatMap]
    have h : (fun g => (processFile ⟨out, true⟩ (envOf g) g).filter isSubprocA) =
        fun _ => ([] : List Action) :=
      funext fun g => processFile_dry_subproc_filter out (envOf g) g
    rw [h]
    simp

/-- C4: With an output directory and dry-run off, every matched file is
moved there flat under its original name, whatever the fate of its
mutations; a file matching none of the four patterns generates no action
at all — relocation and mutation included — under any configuration. -/
theorem claim_C4 (envOf : List Char → FileEnv) (files : List (List Char))
    (out f : List Char) (hf : f ∈ files) :
    (matchedB f = true →
      Action.moveFile f out f ∈ runMatched ⟨some out, false⟩ envOf files) ∧
    (matchedB f = false → ∀ cfg a, a ∈ runMatched cfg envOf files →
      actFile a ≠ f) := by
  constructor
  · intro hm
    unfold runMatched
    rw [List.mem_flatMap]
    refine ⟨f, List.mem_filter.mpr ⟨hf, hm⟩, ?_⟩
    show Action.moveFile f out f ∈
      Action.report f (extract f).1 (extract f).2 ::
        (exifStage ⟨some out, false⟩ (envOf f) f (extract f).1 (extract f).2 ++
          moveStage ⟨some out, false⟩ (envOf f) f)
    refine List.mem_cons_of_mem _ (List.mem_append_right _ ?_)
    unfold moveStage
    simp
  · intro hm cfg a ha haf
    unfold runMatched at ha
    rw [List.mem_flatMap] at ha
    obtain ⟨g, hg, hag⟩ := ha
    have hgf : g = f := (processFile_mem hag).symm.trans haf
    subst hgf
    rw [(List.mem_filter.mp hg).2] at hm
    cases hm

/-- C4 witness: in a two-file input, the matched file is relocated and
actions never concern the unmatched one. -/
theorem claim_C4_witness :
    Action.moveFile "IMG_20230115_143000.jpg".data "out".data
        "IMG_20230115_143000.jpg".data ∈
      runMatched ⟨some "out".data, false⟩
        (fun _ => ⟨true, true, none, true, true, true⟩)
        ["IMG_20230115_143000.jpg".data, "notes.txt".data] :=
  (claim_C4 (fun _ => ⟨true, true, none, true, true, true⟩)
      ["IMG_20230115_143000.jpg".data, "notes.txt".data] "out".data
      "IMG_20230115_143000.jpg".data (by decide)).1 (by decide)

/-- C6: The filesystem timestamp correction sets the file's
last-modified time to the candidate interpreted as a UTC instant (Unix
seconds) and leaves the last-access time equal to its previous value;
the spec's example instant 2023-01-15T14:30:00Z is Unix second
1673793000. -/
theorem claim_C6 :
    (∀ (dt : NDT) (old : FileMeta),
      (set_file_creation_time dt old).atime = old.atime ∧
      (set_file_creation_time dt old).mtime = unixTimestamp dt) ∧
    unixTimestamp ⟨2023, 1, 15, 14, 30, 0⟩ = 1673793000 :=
  ⟨fun _ _ => ⟨rfl, rfl⟩, by decide⟩

end HeuristicDates
